import Mathlib

/-!
Verification development for the GNS3 manager console application
(`gns3_manager.py`): a shallow embedding of its configuration store,
version selector, template renderer and build-command construction,
together with theorems about the behaviour stated in the design
specification.

Conventions used throughout:
* Python strings are modelled as Lean `String` / `List Char`.
* Python dictionaries are modelled as ordered association lists, which is
  how CPython dictionaries behave (insertion order preserved, update in
  place); duplicate keys cannot arise from the operations modelled here.
* Fallible operations return `Option`.
* Machine-level I/O (files, stdin) is modelled by explicit state records
  and explicit event lists.
-/

namespace GNS3

/-! ## Python string primitives -/

/-- The characters Python's `str.strip()` removes: the `str.isspace()`
class (ASCII whitespace, the C1 separators, NEL, NBSP and the Unicode
space separators). -/
def pyIsSpace (c : Char) : Bool :=
  c ∈ [' ', '\t', '\n', '\r', '\x0b', '\x0c',
       '\x1c', '\x1d', '\x1e', '\x1f', '\x85', '\xa0',
       ' ', ' ', ' ', ' ', ' ', ' ',
       ' ', ' ', ' ', ' ', ' ', ' ',
       ' ', ' ', ' ', ' ', '　']

/-- Python `str.strip()` on the character list: drop leading and
trailing whitespace. -/
def pyStripL (l : List Char) : List Char :=
  (((l.dropWhile pyIsSpace).reverse).dropWhile pyIsSpace).reverse

/-- Python `str.strip()`. -/
def pyStrip (s : String) : String :=
  String.mk (pyStripL s.data)

/-- Python `str.lower()`, on the ASCII range (no other code point
lowercases to `'q'`, the only letter the source compares against). -/
def pyLower (s : String) : String :=
  String.mk (s.data.map Char.toLower)

mutual

/-- Digit run of a Python integer literal: decimal digits with single
underscores allowed between digits, as accepted by `int(str)`.
`acc` is the value of the digits already read. -/
def pyDigitsGo (acc : Nat) : List Char → Option Nat
  | [] => some acc
  | c :: r =>
      if c.isDigit then pyDigitsGo (acc * 10 + (c.toNat - 48)) r
      else if c = '_' then pyDigitsAfterUnderscore acc r
      else none

def pyDigitsAfterUnderscore (acc : Nat) : List Char → Option Nat
  | [] => none
  | c :: r => if c.isDigit then pyDigitsGo (acc * 10 + (c.toNat - 48)) r else none

end

/-- A nonempty digit run (first character must be a digit). -/
def pyDigits : List Char → Option Nat
  | [] => none
  | c :: r => if c.isDigit then pyDigitsGo (c.toNat - 48) r else none

/-- Python `int(s)` on a string: strips whitespace, allows one sign,
then a digit run.  Returns `none` where Python raises `ValueError`. -/
def pyIntL : List Char → Option Int
  | [] => none
  | c :: r =>
      if c = '+' then (pyDigits r).map Int.ofNat
      else if c = '-' then (pyDigits r).map (fun n => -(n : Int))
      else (pyDigits (c :: r)).map Int.ofNat

def pyInt (s : String) : Option Int :=
  pyIntL (pyStrip s).data

/-! ## Version selector (`GNS3Manager.select_version`) -/

/-- One interaction with the user during the selection loop: either a
line of input, or a `KeyboardInterrupt` raised at the prompt. -/
inductive ChooseEvent where
  | inp (s : String)
  | interrupt
deriving DecidableEq

/-- The `while True` loop of `select_version`, driven by the list of
user events.  Returns `none` when the event list is exhausted with the
loop still running, `some none` for the Python `return None` (cancel),
and `some (some v)` for a selected version.  The element type is left
polymorphic because Python never constrains it. -/
def selectLoop {α : Type} (versions : List α) : List ChooseEvent → Option (Option α)
  | [] => none
  | ChooseEvent.interrupt :: _ => some none
  | ChooseEvent.inp s :: rest =>
      let choice := pyStrip s
      if pyLower choice = "q" then
        some none
      else
        match pyInt choice with
        | none => selectLoop versions rest
        | some k =>
            let idx : Int := k - 1
            if h : 0 ≤ idx ∧ idx < (versions.length : Int) then
              some (some (versions.get ⟨idx.toNat, by omega⟩))
            else
              selectLoop versions rest

/-- `GNS3Manager.select_version`, with the available list already
extracted and user input supplied as an event list. -/
def select_version {α : Type} (versions : List α) (events : List ChooseEvent) :
    Option (Option α) :=
  if versions.isEmpty then some none else selectLoop versions events

/-! ## JSON documents

The configuration file is JSON.  The data model of the specification
(§3) uses only strings, arrays and objects, so the document type has
exactly those constructors.  An object is the ordered list of its
members, as a CPython dictionary is; the operations below never create
a duplicate key. -/

inductive JValue where
  | str (s : String)
  | arr (xs : List JValue)
  | obj (kvs : List (String × JValue))

/-- Dictionary lookup (`d[k]` / `d.get(k)`): the value of the unique
matching key. -/
def dictGet {β : Type} : List (String × β) → String → Option β
  | [], _ => none
  | (k', x) :: rest, k => if k' = k then some x else dictGet rest k

/-- Dictionary update (`d[k] = v`): replace the value in place when the
key is present, append a new member otherwise — CPython's insertion
semantics. -/
def dictSet {β : Type} : List (String × β) → String → β → List (String × β)
  | [], k, v => [(k, v)]
  | (k', x) :: rest, k, v =>
      if k' = k then (k, v) :: rest else (k', x) :: dictSet rest k v

/-- `k in d` for a document: key membership of an object, false on any
other value. -/
def jHasKey : JValue → String → Bool
  | JValue.obj kvs, k => kvs.any (fun kv => kv.1 = k)
  | _, _ => false

/-- `d.get(k)` for a document: member lookup on an object, `none`
otherwise. -/
def jGet : JValue → String → Option JValue
  | JValue.obj kvs, k => dictGet kvs k
  | _, _ => none

/-- `d.get(k, default)`. -/
def jGetD (v : JValue) (k : String) (dflt : JValue) : JValue :=
  (jGet v k).getD dflt

/-- `d[k] = v` for a document.  (On a non-object Python would raise;
that case is never exercised by the theorems below, which assume the
configuration is an object.) -/
def jSetKey : JValue → String → JValue → JValue
  | JValue.obj kvs, k, v => JValue.obj (dictSet kvs k v)
  | other, _, _ => other

/-- Python truthiness of a document value (`if version:`): empty
strings, arrays and objects are falsy. -/
def jTruthy : JValue → Bool
  | JValue.str s => s ≠ ""
  | JValue.arr xs => ¬ xs.isEmpty
  | JValue.obj kvs => ¬ kvs.isEmpty

/-- The underlying string of a string value. -/
def asStr : JValue → Option String
  | JValue.str s => some s
  | _ => none

/-! ## Serialisation (`json.dump(config, f, indent=2)`)

CPython with `indent=2` and the default `ensure_ascii=True`: members on
their own lines indented two spaces per level, item separator `","`,
key separator `": "`, strings quoted with the JSON short escapes,
`\uXXXX` for other control characters and for every character above
`0x7e` (a surrogate pair above `0xffff`). -/

/-- Lowercase hexadecimal digit of a value below 16. -/
def hexDig (n : Nat) : Char :=
  if n < 10 then Char.ofNat (48 + n) else Char.ofNat (87 + n)

/-- Four-digit lowercase hexadecimal rendering of a code unit. -/
def hex4 (n : Nat) : List Char :=
  [hexDig (n / 4096 % 16), hexDig (n / 256 % 16), hexDig (n / 16 % 16), hexDig (n % 16)]

/-- The escape of one character inside a dumped JSON string. -/
def escapeChar (c : Char) : List Char :=
  if c = '"' then ['\\', '"']
  else if c = '\\' then ['\\', '\\']
  else if c = '\n' then ['\\', 'n']
  else if c = '\t' then ['\\', 't']
  else if c = '\r' then ['\\', 'r']
  else if c = '\x08' then ['\\', 'b']
  else if c = '\x0c' then ['\\', 'f']
  else if c.toNat < 0x20 then '\\' :: 'u' :: hex4 c.toNat
  else if c.toNat < 0x7f then [c]
  else if c.toNat < 0x10000 then '\\' :: 'u' :: hex4 c.toNat
  else
    '\\' :: 'u' :: hex4 (0xd800 + (c.toNat - 0x10000) / 0x400) ++
      '\\' :: 'u' :: hex4 (0xdc00 + (c.toNat - 0x10000) % 0x400)

/-- Escaped body of a dumped JSON string. -/
def escapeList (cs : List Char) : List Char :=
  cs.flatMap escapeChar

/-- A dumped JSON string, quotes included. -/
def quoteStr (s : String) : List Char :=
  '"' :: escapeList s.data ++ ['"']

/-- Newline followed by the indentation of nesting level `lvl`. -/
def nlIndent (lvl : Nat) : List Char :=
  '\n' :: List.replicate (2 * lvl) ' '

mutual

/-- Dump of a document whose members sit at nesting level `lvl + 1`. -/
def dumpVal (lvl : Nat) : JValue → List Char
  | JValue.str s => quoteStr s
  | JValue.arr [] => ['[', ']']
  | JValue.arr (x :: xs) =>
      '[' :: (nlIndent (lvl + 1) ++ dumpItems (lvl + 1) x xs ++ nlIndent lvl ++ [']'])
  | JValue.obj [] => ['\x7b', '\x7d']
  | JValue.obj (kv :: kvs) =>
      '\x7b' :: (nlIndent (lvl + 1) ++ dumpMembers (lvl + 1) kv kvs ++ nlIndent lvl ++ ['\x7d'])
termination_by v => sizeOf v

/-- Dump of the items of a nonempty array, separated by `","` and the
indentation of level `lvl`. -/
def dumpItems (lvl : Nat) (x : JValue) : List JValue → List Char
  | [] => dumpVal lvl x
  | y :: ys => dumpVal lvl x ++ ',' :: (nlIndent lvl ++ dumpItems lvl y ys)
termination_by xs => sizeOf x + sizeOf xs

/-- Dump of the members of a nonempty object. -/
def dumpMembers (lvl : Nat) : (String × JValue) → List (String × JValue) → List Char
  | (k, v), [] => quoteStr k ++ ':' :: ' ' :: dumpVal lvl v
  | (k, v), kv' :: kvs =>
      quoteStr k ++ ':' :: ' ' :: dumpVal lvl v ++
        ',' :: (nlIndent lvl ++ dumpMembers lvl kv' kvs)
termination_by kv kvs => sizeOf kv + sizeOf kvs

end

/-- `json.dump(v, f, indent=2)`: the exact text written to the file. -/
def dumps (v : JValue) : String :=
  String.mk (dumpVal 0 v)

/-! ## Parsing (`json.load`)

A recursive-descent reading of the grammar restricted to the forms of
the data model (strings, arrays, objects), with the whitespace, escape
and strictness rules of CPython's decoder: arbitrary JSON whitespace
between tokens, the short escapes plus `\uXXXX` with surrogate pairs
inside strings, raw control characters rejected, trailing non-space
rejected.  (Lone surrogates, which Lean characters cannot carry, are
rejected; `json.dump` output never contains them.)  Recursion is driven
by an explicit fuel, supplied at top level as the input length plus
one, which the round-trip theorems show is always enough for dumped
text. -/

/-- The whitespace `json.load` skips between tokens. -/
def isJsonWs (c : Char) : Bool :=
  c = ' ' ∨ c = '\t' ∨ c = '\n' ∨ c = '\r'

/-- Skip inter-token whitespace. -/
def skipWs (s : List Char) : List Char :=
  s.dropWhile isJsonWs

/-- Value of one hexadecimal digit. -/
def hexVal (c : Char) : Option Nat :=
  if '0' ≤ c ∧ c ≤ '9' then some (c.toNat - 48)
  else if 'a' ≤ c ∧ c ≤ 'f' then some (c.toNat - 87)
  else if 'A' ≤ c ∧ c ≤ 'F' then some (c.toNat - 55)
  else none

/-- Read four hexadecimal digits. -/
def readHex4 : List Char → Option (Nat × List Char)
  | c1 :: c2 :: c3 :: c4 :: r => do
      let d1 ← hexVal c1
      let d2 ← hexVal c2
      let d3 ← hexVal c3
      let d4 ← hexVal c4
      pure (((d1 * 16 + d2) * 16 + d3) * 16 + d4, r)
  | _ => none

/-- The value of a short escape character (`\"`, `\\`, `\/`, `\b`,
`\f`, `\n`, `\r`, `\t`). -/
def escShort (e : Char) : Option Char :=
  if e = '"' then some '"'
  else if e = '\\' then some '\\'
  else if e = '/' then some '/'
  else if e = 'b' then some '\x08'
  else if e = 'f' then some '\x0c'
  else if e = 'n' then some '\n'
  else if e = 'r' then some '\r'
  else if e = 't' then some '\t'
  else none

/-- String body scanner, after the opening quote; returns the decoded
characters and the input after the closing quote. -/
def parseStrBodyF : Nat → List Char → Option (List Char × List Char)
  | 0, _ => none
  | _ + 1, [] => none
  | fuel + 1, c :: r =>
      if c = '"' then some ([], r)
      else if c = '\\' then
        match r with
        | [] => none
        | e :: r1 =>
            if e = 'u' then
              match readHex4 r1 with
              | none => none
              | some (h, r2) =>
                  if 0xd800 ≤ h ∧ h < 0xdc00 then
                    match r2 with
                    | e2 :: e3 :: r3 =>
                        if e2 = '\\' ∧ e3 = 'u' then
                          match readHex4 r3 with
                          | none => none
                          | some (l, r4) =>
                              if 0xdc00 ≤ l ∧ l < 0xe000 then
                                (parseStrBodyF fuel r4).map (fun p =>
                                  (Char.ofNat
                                      (0x10000 + (h - 0xd800) * 0x400 + (l - 0xdc00)) ::
                                    p.1, p.2))
                              else none
                        else none
                    | _ => none
                  else if 0xdc00 ≤ h ∧ h < 0xe000 then none
                  else (parseStrBodyF fuel r2).map (fun p => (Char.ofNat h :: p.1, p.2))
            else
              match escShort e with
              | none => none
              | some d => (parseStrBodyF fuel r1).map (fun p => (d :: p.1, p.2))
      else if c.toNat < 0x20 then none
      else (parseStrBodyF fuel r).map (fun p => (c :: p.1, p.2))

/-- String scanner with fuel supplied from the input length. -/
def parseStrBody (s : List Char) : Option (List Char × List Char) :=
  parseStrBodyF (s.length + 1) s

mutual

/-- Parse one value; fuel bounds the nesting depth descended into. -/
def parseVal : Nat → List Char → Option (JValue × List Char)
  | 0, _ => none
  | fuel + 1, s =>
      match skipWs s with
      | [] => none
      | c :: r =>
          if c = '"' then
            (parseStrBody r).map (fun p => (JValue.str (String.mk p.1), p.2))
          else if c = '[' then
            match skipWs r with
            | [] => none
            | c2 :: r2 =>
                if c2 = ']' then some (JValue.arr [], r2)
                else (parseItems fuel r).map (fun p => (JValue.arr p.1, p.2))
          else if c = '\x7b' then
            match skipWs r with
            | [] => none
            | c2 :: r2 =>
                if c2 = '\x7d' then some (JValue.obj [], r2)
                else (parseMembers fuel r).map (fun p => (JValue.obj p.1, p.2))
          else none

/-- Parse the items of a nonempty array, consuming the closing bracket. -/
def parseItems : Nat → List Char → Option (List JValue × List Char)
  | 0, _ => none
  | fuel + 1, s =>
      match parseVal fuel s with
      | none => none
      | some (v, r) =>
          match skipWs r with
          | [] => none
          | c :: r2 =>
              if c = ',' then (parseItems fuel r2).map (fun p => (v :: p.1, p.2))
              else if c = ']' then some ([v], r2)
              else none

/-- Parse the members of a nonempty object, consuming the closing
brace. -/
def parseMembers : Nat → List Char → Option (List (String × JValue) × List Char)
  | 0, _ => none
  | fuel + 1, s =>
      match skipWs s with
      | [] => none
      | c :: r =>
          if c = '"' then
            match parseStrBody r with
            | none => none
            | some (k, r1) =>
                match skipWs r1 with
                | [] => none
                | c2 :: r2 =>
                    if c2 = ':' then
                      match parseVal fuel r2 with
                      | none => none
                      | some (v, r3) =>
                          match skipWs r3 with
                          | [] => none
                          | c3 :: r4 =>
                              if c3 = ',' then
                                (parseMembers fuel r4).map
                                  (fun p => ((String.mk k, v) :: p.1, p.2))
                              else if c3 = '\x7d' then
                                some ([(String.mk k, v)], r4)
                              else none
                    else none
          else none

end

/-- `json.load` on the text of a file: parse one document, allow only
whitespace after it. -/
def parseJ (s : String) : Option JValue :=
  match parseVal (s.data.length + 1) s.data with
  | some (v, r) => if (skipWs r).isEmpty then some v else none
  | none => none

/-! ## The manager's state (`GNS3Manager`)

`config` is the in-memory document `self.config`; `file` is the text of
the file at `self.config_path`. -/

structure MState where
  config : JValue
  file : String

/-- `GNS3Manager.save_config`: serialise the in-memory document over
the config file. -/
def save_config (st : MState) : MState :=
  { st with file := dumps st.config }

/-- `GNS3Manager.get_defaults`: `self.config.get("defaults", \x7b\x7d)`. -/
def get_defaults (config : JValue) : JValue :=
  jGetD config "defaults" (JValue.obj [])

/-- `GNS3Manager.get_available_versions`. -/
def get_available_versions (config : JValue) : JValue :=
  jGetD config "available_versions" (JValue.obj [])

/-- The list `available.get(component, [])` that `select_version`
iterates over.  A non-array value under the key (never produced by the
modelled operations) is outside the data model and is read as the empty
list. -/
def versionsOf (config : JValue) (component : String) : List JValue :=
  match jGet (get_available_versions config) component with
  | some (JValue.arr xs) => xs
  | _ => []

/-- `GNS3Manager.update_default`: ensure `defaults` exists, set
`defaults["<component>_version"]` (the source computes the same key
string on both arms of its conditional expression), then save. -/
def update_default (st : MState) (component : String) (version : JValue) : MState :=
  let cfg0 := if jHasKey st.config "defaults" then st.config
              else jSetKey st.config "defaults" (JValue.obj [])
  let key := component ++ "_version"
  let dflts := (jGet cfg0 "defaults").getD (JValue.obj [])
  let cfg1 := jSetKey cfg0 "defaults" (jSetKey dflts key version)
  save_config { st with config := cfg1 }

/-- One pass through menu options 1/2 of `GNS3Manager.run`: select a
version for `component`, and update the default only when the selection
is truthy.  `none` means the event list ran out with the selection loop
still prompting. -/
def menuSelect (st : MState) (component : String) (events : List ChooseEvent) :
    Option MState :=
  match select_version (versionsOf st.config component) events with
  | none => none
  | some none => some st
  | some (some v) => some (if jTruthy v then update_default st component v else st)

/-! ## Python `str.replace` -/

/-- The scan of `str.replace(old, new)` for nonempty `old`: at each
position, if `old` matches it is consumed and `new` emitted, otherwise
one character is copied; occurrences are replaced left to right without
overlap. -/
def pyReplaceGo (old new : List Char) : List Char → List Char
  | [] => []
  | c :: rest =>
      if old.isPrefixOf (c :: rest) then
        new ++ pyReplaceGo old new (rest.drop (old.length - 1))
      else
        c :: pyReplaceGo old new rest
termination_by s => s.length
decreasing_by
  · simp only [List.length_drop, List.length_cons]; omega
  · simp only [List.length_cons]; omega

/-- Python `s.replace(old, new)`.  For empty `old`, Python interleaves
`new` around every character. -/
def pyReplace (s old new : String) : String :=
  if old.data.isEmpty then
    String.mk (new.data ++ s.data.flatMap (fun c => c :: new.data))
  else
    String.mk (pyReplaceGo old.data new.data s.data)

/-! ## Template renderer (`GNS3Manager.generate_compose_file`) -/

/-- The emulator placeholder token (`"$" "{" "QEMU_VERSION" "}"`). -/
def qemuTok : String := "$\x7bQEMU_VERSION\x7d"

/-- The server placeholder token (`"$" "{" "GNS3_SERVER_VERSION" "}"`). -/
def serverTok : String := "$\x7bGNS3_SERVER_VERSION\x7d"

/-- The placeholder token of a substitution key. -/
def placeholderTok (k : String) : String := "$\x7b" ++ k ++ "\x7d"

/-- The specification's `render(template, output, substitutions)`
interface realised with the source's replacement strategy: one literal
`str.replace` per substitution, applied in order. -/
def renderSubst (t : String) (subs : List (String × String)) : String :=
  subs.foldl (fun acc kv => pyReplace acc (placeholderTok kv.1) kv.2) t

/-- The files `generate_compose_file` touches: the template (existence
flag and content) and the compose output (content, when it exists). -/
structure FS where
  templateExists : Bool
  template : String
  compose : Option String

/-- `GNS3Manager.generate_compose_file`: fetch the two defaults with
their fallback constants, fail (returning `False`) before any write if
the template is missing, otherwise substitute the two tokens in turn
and overwrite the compose file.  The outer `none` is a Python
`TypeError` from calling `replace` with a non-string default, which no
valid configuration triggers. -/
def generate_compose_file (config : JValue) (fs : FS) : Option (Bool × FS) :=
  let defaults := get_defaults config
  let qemuJ := jGetD defaults "qemu_version" (JValue.str "4.2.1")
  let serverJ := jGetD defaults "gns3_server_version" (JValue.str "2.2.40")
  if fs.templateExists = false then
    some (false, fs)
  else
    match asStr qemuJ, asStr serverJ with
    | some qemu_version, some gns3_version =>
        let content := fs.template
        let content := pyReplace content qemuTok qemu_version
        let content := pyReplace content serverTok gns3_version
        some (true, { fs with compose := some content })
    | _, _ => none

/-! ## Build command (`GNS3Manager.build_image`) -/

/-- `GNS3Manager.build_image`, up to the point where the command line
is handed to the external runner: the derived image tag and the full
argument vector.  As above, non-string defaults are outside the data
model. -/
def build_image (config : JValue) : Option (String × List String) :=
  let defaults := get_defaults config
  match asStr (jGetD defaults "qemu_version" (JValue.str "4.2.1")),
        asStr (jGetD defaults "gns3_server_version" (JValue.str "2.2.40")) with
  | some qemu_version, some gns3_version =>
      let image_name := "gns3-qemu:" ++ qemu_version ++ "-server-" ++ gns3_version
      some (image_name,
        ["docker", "build",
         "--build-arg", "QEMU_VERSION=" ++ qemu_version,
         "--build-arg", "GNS3_SERVER_VERSION=" ++ gns3_version,
         "-t", image_name,
         "."])
  | _, _ => none

/-! ## Simultaneous substitution (the specification's reading)

Modelled from the spec: §4.3 describes rendering as exact literal
replacement of each placeholder with "not nested expansion —
placeholders are literal markers", i.e. one simultaneous left-to-right
pass over the original template in which substituted values are never
rescanned.  This definition follows those words; the source instead
performs two sequential `replace` calls. -/
def simSubst (v1 v2 : List Char) : List Char → List Char
  | [] => []
  | c :: rest =>
      if qemuTok.data.isPrefixOf (c :: rest) then
        v1 ++ simSubst v1 v2 ((c :: rest).drop qemuTok.data.length)
      else if serverTok.data.isPrefixOf (c :: rest) then
        v2 ++ simSubst v1 v2 ((c :: rest).drop serverTok.data.length)
      else
        c :: simSubst v1 v2 rest
termination_by s => s.length
decreasing_by
  · simp only [List.length_drop, List.length_cons]
    have : 0 < qemuTok.data.length := by decide
    omega
  · simp only [List.length_drop, List.length_cons]
    have : 0 < serverTok.data.length := by decide
    omega
  · simp only [List.length_cons]; omega

/-! ## Facts about `str.replace` -/

/-- Executable absence of any occurrence of `old` in `s`. -/
def noOccur (old s : List Char) : Bool :=
  (List.range s.length).all (fun i => ¬ old.isPrefixOf (s.drop i))

/-- Value of a list of decimal digit characters. -/
def charsToNat (l : List Char) : Nat :=
  l.foldl (fun a c => a * 10 + (c.toNat - 48)) 0

/-- `s` is the decimal string of the integer `k`: nonempty, all digits,
with value `k`. -/
def decimalRepr (s : String) (k : Nat) : Prop :=
  s.data ≠ [] ∧ s.data.all Char.isDigit = true ∧ charsToNat s.data = k

/-! The fuel each parser entry point needs, used only to prove the
round-trip theorems: one unit per `parseVal`/`parseItems`/
`parseMembers` call along the deepest chain of the document. -/

mutual

/-- Fuel sufficient for `parseVal` on the dump of a document. -/
def cost : JValue → Nat
  | JValue.str _ => 1
  | JValue.arr [] => 1
  | JValue.arr (x :: xs) => 1 + costItems x xs
  | JValue.obj [] => 1
  | JValue.obj (kv :: kvs) => 1 + costMembers kv kvs
termination_by v => sizeOf v

/-- Fuel sufficient for `parseItems` on dumped items. -/
def costItems (x : JValue) : List JValue → Nat
  | [] => 1 + cost x
  | y :: ys => 1 + max (cost x) (costItems y ys)
termination_by xs => sizeOf x + sizeOf xs

/-- Fuel sufficient for `parseMembers` on dumped members. -/
def costMembers : (String × JValue) → List (String × JValue) → Nat
  | (_, v), [] => 1 + cost v
  | (_, v), kv2 :: kvs => 1 + max (cost v) (costMembers kv2 kvs)
termination_by kv kvs => sizeOf kv + sizeOf kvs

end

theorem noOccur_spec {old s : List Char} (h : noOccur old s = true) :
    ∀ i, i < s.length → ¬ old <+: s.drop i := by
  intro i hi
  have := (List.all_eq_true.mp h) i (List.mem_range.mpr hi)
  simpa [List.isPrefixOf_iff_prefix] using this

theorem not_prefix_drop_parts {old : List Char} (a b : List Char) (i : Nat)
    (h1 : i < a.length → ¬ old <+: (a.drop i ++ b))
    (h2 : a.length ≤ i → ¬ old <+: b.drop (i - a.length)) :
    ¬ old <+: (a ++ b).drop i := by
  rw [List.drop_append_eq_append_drop]
  rcases lt_or_ge i a.length with h | h
  · have hz : i - a.length = 0 := by omega
    rw [hz, List.drop_zero]
    exact h1 h
  · rw [List.drop_eq_nil_of_le h, List.nil_append]
    exact h2 h

theorem not_prefix_drop_of_get_ne (d : Char) (old' a b : List Char) (i : Nat)
    (hi : i < a.length) (hne : a.get ⟨i, hi⟩ ≠ d) :
    ¬ (d :: old') <+: (a.drop i ++ b) := by
  rw [List.drop_eq_getElem_cons hi, List.cons_append]
  intro h
  rw [List.cons_prefix_cons] at h
  exact hne (by rw [List.get_eq_getElem]; exact h.1.symm)

theorem not_prefix_append_of_get_ne (a b c : List Char) (i : Nat)
    (ha : i < a.length) (hb : i < b.length)
    (hne : a.get ⟨i, ha⟩ ≠ b.get ⟨i, hb⟩) : ¬ a <+: b ++ c := by
  intro h
  have hi : i < (b ++ c).length := by simp; omega
  have h1 := h.getElem ha
  rw [List.getElem_append_left hb] at h1
  exact hne (by rw [List.get_eq_getElem, List.get_eq_getElem]; exact h1)

/-- Characters disjoint from the head of `old` support no occurrence
start. -/
theorem no_start_in_disjoint (d : Char) (old' a b : List Char)
    (hd : ∀ c ∈ a, c ≠ d) :
    ∀ i, i < a.length → ¬ (d :: old') <+: (a ++ b).drop i := by
  intro i hi
  apply not_prefix_drop_parts a b i _ (by omega)
  intro hlt
  exact not_prefix_drop_of_get_ne d old' a b i hlt (hd _ (a.get_mem i hlt))

/-- When no occurrence of `old` starts inside the prefix `a`, the scan
copies `a` verbatim. -/
theorem pyReplaceGo_append (old new a b : List Char)
    (h : ∀ i, i < a.length → ¬ old <+: (a ++ b).drop i) :
    pyReplaceGo old new (a ++ b) = a ++ pyReplaceGo old new b := by
  induction a with
  | nil => simp
  | cons c a' ih =>
      rw [List.cons_append]
      simp only [pyReplaceGo]
      rw [if_neg]
      · rw [List.cons_append]
        congr 1
        apply ih
        intro i hi
        have := h (i + 1) (by simp; omega)
        simpa using this
      · intro hpre
        exact h 0 (by simp) (by simpa [List.isPrefixOf_iff_prefix] using hpre)

/-- The scan replaces an occurrence of `old` sitting at the front. -/
theorem pyReplaceGo_cons_eq (old new b : List Char) (ho : old ≠ []) :
    pyReplaceGo old new (old ++ b) = new ++ pyReplaceGo old new b := by
  obtain ⟨o, o', rfl⟩ : ∃ o o', old = o :: o' := by
    cases old with
    | nil => exact absurd rfl ho
    | cons o o' => exact ⟨o, o', rfl⟩
  rw [List.cons_append]
  simp only [pyReplaceGo]
  rw [if_pos]
  · congr 2
    simp [List.drop_left]
  · rw [List.isPrefixOf_iff_prefix]
    exact ⟨b, by simp⟩

/-- A string containing no occurrence of `old` is returned unchanged. -/
theorem pyReplaceGo_id (old new s : List Char)
    (h : ∀ i, i < s.length → ¬ old <+: s.drop i) :
    pyReplaceGo old new s = s := by
  have := pyReplaceGo_append old new s [] (by simpa using h)
  simpa [pyReplaceGo] using this

/-- A tail of a token `tok` whose characters are all absent from the
inserted value `new` cannot become a prefix of the replaced string
unless it already prefixed the original. -/
theorem prefix_free_pyReplaceGo (old new tok : List Char) (hnew : new ≠ [])
    (hdisj : ∀ c ∈ new, c ∉ tok) :
    ∀ (t u : List Char) (k : Nat), k < tok.length → u = tok.drop k →
      ¬ u <+: t → ¬ u <+: pyReplaceGo old new t := by
  intro t
  induction t with
  | nil =>
      intro u k hk hu ht
      simp only [pyReplaceGo]
      intro hpre
      have : u = [] := List.prefix_nil.mp hpre
      rw [hu] at this
      have : tok.length - k = 0 := by
        simpa [List.length_drop] using congrArg List.length this
      omega
  | cons c rest ih =>
      intro u k hk hu ht
      simp only [pyReplaceGo]
      by_cases hc : old.isPrefixOf (c :: rest)
      · rw [if_pos hc]
        obtain ⟨n0, new', rfl⟩ : ∃ n0 new', new = n0 :: new' := by
          cases new with
          | nil => exact absurd rfl hnew
          | cons n0 new' => exact ⟨n0, new', rfl⟩
        intro hpre
        rw [hu, List.drop_eq_getElem_cons hk, List.cons_append,
          List.cons_prefix_cons] at hpre
        exact hdisj n0 (List.mem_cons_self n0 new') (hpre.1 ▸ List.getElem_mem hk)
      · rw [if_neg hc]
        intro hpre
        rw [hu, List.drop_eq_getElem_cons hk, List.cons_prefix_cons] at hpre
        rcases lt_or_ge (k + 1) tok.length with hk1 | hk1
        · exact ih (tok.drop (k + 1)) (k + 1) hk1 rfl
            (fun hcon => ht (by
              rw [hu, List.drop_eq_getElem_cons hk, List.cons_prefix_cons]
              exact ⟨hpre.1, hcon⟩)) hpre.2
        · apply ht
          rw [hu, List.drop_eq_getElem_cons hk, List.drop_eq_nil_of_le hk1,
            List.cons_prefix_cons]
          exact ⟨hpre.1, List.nil_prefix⟩

/-! ## Sequential versus simultaneous substitution -/

theorem serverTok_inside :
    ∀ i, ∀ h : i < serverTok.data.length, 0 < i → serverTok.data.get ⟨i, h⟩ ≠ '$' := by
  decide

theorem simSubst_unfold (v1 v2 : List Char) (t : List Char) :
    simSubst v1 v2 t =
      if qemuTok.data.isPrefixOf t then
        v1 ++ simSubst v1 v2 (t.drop qemuTok.data.length)
      else if serverTok.data.isPrefixOf t then
        v2 ++ simSubst v1 v2 (t.drop serverTok.data.length)
      else
        match t with
        | [] => []
        | c :: rest => c :: simSubst v1 v2 rest := by
  cases t with
  | nil =>
      rw [if_neg (by decide), if_neg (by decide)]
      simp [simSubst]
  | cons c rest => simp only [simSubst]

theorem simSubst_tok1 (v1 v2 r : List Char) :
    simSubst v1 v2 (qemuTok.data ++ r) = v1 ++ simSubst v1 v2 r := by
  rw [simSubst_unfold, if_pos (by rw [List.isPrefixOf_iff_prefix]; exact ⟨r, rfl⟩),
    List.drop_left]

theorem simSubst_tok2 (v1 v2 r : List Char)
    (h : ¬ qemuTok.data <+: serverTok.data ++ r) :
    simSubst v1 v2 (serverTok.data ++ r) = v2 ++ simSubst v1 v2 r := by
  rw [simSubst_unfold,
    if_neg (fun hh => h ((List.isPrefixOf_iff_prefix).mp hh)),
    if_pos (by rw [List.isPrefixOf_iff_prefix]; exact ⟨r, rfl⟩),
    List.drop_left]

theorem simSubst_cons (v1 v2 : List Char) (c : Char) (rest : List Char)
    (h1 : ¬ qemuTok.data <+: c :: rest) (h2 : ¬ serverTok.data <+: c :: rest) :
    simSubst v1 v2 (c :: rest) = c :: simSubst v1 v2 rest := by
  rw [simSubst_unfold,
    if_neg (fun hh => h1 ((List.isPrefixOf_iff_prefix).mp hh)),
    if_neg (fun hh => h2 ((List.isPrefixOf_iff_prefix).mp hh))]

/-- The source's two sequential `replace` passes coincide with the
specification's single simultaneous pass whenever the first value is
nonempty and shares no character with the server token. -/
theorem seq_eq_sim_aux (v1 v2 : List Char) (hv1 : v1 ≠ [])
    (hdisj : ∀ c ∈ v1, c ∉ serverTok.data) :
    ∀ n t, List.length t ≤ n →
      pyReplaceGo serverTok.data v2 (pyReplaceGo qemuTok.data v1 t) =
        simSubst v1 v2 t := by
  have hdollar : ∀ c ∈ v1, c ≠ '$' := fun c hc he =>
    hdisj c hc (he ▸ (by decide : '$' ∈ serverTok.data))
  intro n
  induction n with
  | zero =>
      intro t ht
      have ht0 : t = [] := List.length_eq_zero.mp (by omega)
      subst ht0
      simp [pyReplaceGo, simSubst]
  | succ n ih =>
      intro t ht
      by_cases hp1 : qemuTok.data <+: t
      · obtain ⟨r, rfl⟩ := hp1
        rw [pyReplaceGo_cons_eq _ _ _ (by decide), pyReplaceGo_append]
        · rw [ih r (by
            have hl : qemuTok.data.length = 15 := by decide
            simp [List.length_append, hl] at ht
            omega)]
          rw [simSubst_tok1]
        · rw [show serverTok.data = '$' :: serverTok.data.tail from rfl]
          exact no_start_in_disjoint '$' _ v1 _ hdollar
      · by_cases hp2 : serverTok.data <+: t
        · obtain ⟨r, rfl⟩ := hp2
          rw [pyReplaceGo_append qemuTok.data v1 serverTok.data r ?cond]
          case cond =>
            intro i hi
            rcases Nat.eq_zero_or_pos i with rfl | hpos
            · simpa using hp1
            · refine not_prefix_drop_parts _ _ _ ?_ (fun hle => absurd hle (by omega))
              intro hlt
              rw [show qemuTok.data = '$' :: qemuTok.data.tail from rfl]
              exact not_prefix_drop_of_get_ne '$' _ _ _ i hlt
                (serverTok_inside i hlt hpos)
          rw [pyReplaceGo_cons_eq _ _ _ (by decide)]
          rw [ih r (by
            have hl : serverTok.data.length = 22 := by decide
            simp [List.length_append, hl] at ht
            omega)]
          rw [simSubst_tok2 _ _ _ hp1]
        · cases t with
          | nil => simp [pyReplaceGo, simSubst]
          | cons c rest =>
              have hgo1 : pyReplaceGo qemuTok.data v1 (c :: rest) =
                  c :: pyReplaceGo qemuTok.data v1 rest := by
                simp only [pyReplaceGo]
                rw [if_neg (fun hh => hp1 ((List.isPrefixOf_iff_prefix).mp hh))]
              have hnp2 : ¬ serverTok.data <+: (c :: pyReplaceGo qemuTok.data v1 rest) := by
                rw [← hgo1]
                exact prefix_free_pyReplaceGo qemuTok.data v1 serverTok.data hv1 hdisj
                  (c :: rest) serverTok.data 0 (by decide) (List.drop_zero _).symm hp2
              rw [hgo1]
              simp only [pyReplaceGo]
              rw [if_neg (fun hh => hnp2 ((List.isPrefixOf_iff_prefix).mp hh))]
              rw [ih rest (by simp at ht; omega)]
              rw [simSubst_cons _ _ _ _ hp1 hp2]

/-- Top-level form of the coincidence, on strings. -/
theorem seq_eq_sim (v1 v2 t : String) (hv1 : v1.data ≠ [])
    (hdisj : ∀ c ∈ v1.data, c ∉ serverTok.data) :
    pyReplace (pyReplace t qemuTok v1) serverTok v2 =
      String.mk (simSubst v1.data v2.data t.data) := by
  unfold pyReplace
  rw [if_neg (by decide), if_neg (by decide)]
  exact congrArg String.mk
    (seq_eq_sim_aux v1.data v2.data hv1 hdisj t.data.length t.data le_rfl)

/-! ## Dictionary facts -/

theorem dictGet_dictSet_self {β : Type} (kvs : List (String × β)) (k : String) (v : β) :
    dictGet (dictSet kvs k v) k = some v := by
  induction kvs with
  | nil => simp [dictSet, dictGet]
  | cons kv rest ih =>
      obtain ⟨k2, x⟩ := kv
      by_cases h : k2 = k
      · subst h; simp [dictSet, dictGet]
      · simp [dictSet, dictGet, h, ih]

theorem dictGet_none_of_not_any {β : Type} {kvs : List (String × β)} {k : String}
    (h : kvs.any (fun kv => kv.1 = k) = false) : dictGet kvs k = none := by
  induction kvs with
  | nil => simp [dictGet]
  | cons kv rest ih =>
      simp only [List.any_cons, Bool.or_eq_false_iff] at h
      rw [dictGet, if_neg (by simpa using h.1)]
      exact ih h.2

/-! ## Facts about `str.strip` and `int` -/

theorem dropWhile_idem (p : Char → Bool) (l : List Char) :
    (l.dropWhile p).dropWhile p = l.dropWhile p := by
  induction l with
  | nil => simp
  | cons c t ih =>
      by_cases h : p c
      · simp [List.dropWhile_cons, h, ih]
      · simp [List.dropWhile_cons, h]

theorem dropWhile_prefix_invariant {p : Char → Bool} {l l2 : List Char}
    (h : l.dropWhile p = l) (hpre : l2 <+: l) : l2.dropWhile p = l2 := by
  cases l2 with
  | nil => simp
  | cons c t =>
      cases l with
      | nil =>
          have := List.prefix_nil.mp hpre
          simp at this
      | cons d u =>
          rw [List.cons_prefix_cons] at hpre
          have hd : ¬ p d = true := by
            intro hp
            have hlen := congrArg List.length h
            rw [List.dropWhile_cons, if_pos hp] at hlen
            have := (List.dropWhile_suffix (l := u) p).length_le
            simp at hlen
            omega
          rw [List.dropWhile_cons, if_neg (hpre.1 ▸ hd)]

theorem pyStripL_idem (l : List Char) : pyStripL (pyStripL l) = pyStripL l := by
  have h1 : (l.dropWhile pyIsSpace).dropWhile pyIsSpace = l.dropWhile pyIsSpace :=
    dropWhile_idem _ _
  set a := l.dropWhile pyIsSpace with ha
  set b := ((a.reverse).dropWhile pyIsSpace).reverse with hb
  have hbrev : b.reverse = (a.reverse).dropWhile pyIsSpace := by
    rw [hb, List.reverse_reverse]
  have hb_pre : b <+: a := by
    have hsuf : (a.reverse).dropWhile pyIsSpace <:+ a.reverse := List.dropWhile_suffix _
    rw [← hbrev] at hsuf
    exact List.reverse_suffix.mp hsuf
  have hbdw : b.dropWhile pyIsSpace = b := dropWhile_prefix_invariant h1 hb_pre
  have hbrdw : (b.reverse).dropWhile pyIsSpace = b.reverse := by
    rw [hbrev]
    exact dropWhile_idem _ _
  show ((((b.dropWhile pyIsSpace).reverse).dropWhile pyIsSpace).reverse) = b
  rw [hbdw, hbrdw, List.reverse_reverse]

theorem pyStrip_idem (s : String) : pyStrip (pyStrip s) = pyStrip s := by
  unfold pyStrip
  exact congrArg String.mk (pyStripL_idem s.data)

theorem pyStripL_eq_self {l : List Char} (h : ∀ c ∈ l, pyIsSpace c = false) :
    pyStripL l = l := by
  unfold pyStripL
  have h1 : l.dropWhile pyIsSpace = l := by
    cases l with
    | nil => simp
    | cons c t => simp [List.dropWhile_cons, h c (List.mem_cons_self c t)]
  rw [h1]
  have h2 : (l.reverse).dropWhile pyIsSpace = l.reverse := by
    cases hr : l.reverse with
    | nil => simp
    | cons c t =>
        have hc : c ∈ l := by
          rw [← List.mem_reverse, hr]
          exact List.mem_cons_self c t
        simp [List.dropWhile_cons, h c hc]
  rw [h2, List.reverse_reverse]

theorem digit_not_space {c : Char} (h : c.isDigit = true) : pyIsSpace c = false := by
  by_contra hc
  rw [Bool.not_eq_false, pyIsSpace, decide_eq_true_eq] at hc
  fin_cases hc <;> exact absurd h (by decide)

theorem pyStrip_of_digits {s : String} (h : s.data.all Char.isDigit = true) :
    pyStrip s = s := by
  unfold pyStrip
  rw [pyStripL_eq_self (fun c hc => digit_not_space (List.all_eq_true.mp h c hc))]

theorem toLower_digit {c : Char} (h : c.isDigit = true) : c.toLower = c := by
  have hv : 48 ≤ c.toNat ∧ c.toNat ≤ 57 := by
    simp [Char.isDigit, Char.le_def] at h
    exact ⟨h.1, h.2⟩
  rw [Char.toLower]
  split
  · omega
  · rfl

theorem pyLower_digits_ne_q {s : String} (hne : s.data ≠ [])
    (h : s.data.all Char.isDigit = true) : pyLower s ≠ "q" := by
  intro hq
  have hdata : s.data.map Char.toLower = ("q" : String).data :=
    congrArg String.data hq
  cases hd : s.data with
  | nil => exact hne hd
  | cons c t =>
      rw [hd, List.map_cons] at hdata
      have hc : c.isDigit = true :=
        List.all_eq_true.mp h c (by rw [hd]; exact List.mem_cons_self c t)
      rw [toLower_digit hc] at hdata
      have hq2 : ("q" : String).data = ['q'] := rfl
      rw [hq2] at hdata
      have hcq : c = 'q' := (List.cons_eq_cons.mp hdata).1
      rw [hcq] at hc
      exact absurd hc (by decide)

theorem pyDigitsGo_digits :
    ∀ (l : List Char) (acc : Nat), l.all Char.isDigit = true →
      pyDigitsGo acc l = some (l.foldl (fun a c => a * 10 + (c.toNat - 48)) acc) := by
  intro l
  induction l with
  | nil => intro acc _; simp [pyDigitsGo]
  | cons c t ih =>
      intro acc h
      rw [List.all_cons, Bool.and_eq_true] at h
      rw [pyDigitsGo, if_pos h.1, List.foldl_cons]
      exact ih _ h.2

theorem pyInt_of_decimal {s : String} {k : Nat} (h : decimalRepr s k) :
    pyInt s = some (k : Int) := by
  obtain ⟨hne, hdig, hval⟩ := h
  rw [pyInt, pyStrip_of_digits hdig]
  cases hd : s.data with
  | nil => exact absurd hd hne
  | cons c t =>
      rw [hd] at hdig
      rw [List.all_cons, Bool.and_eq_true] at hdig
      have hc : c ≠ '+' := fun he => by rw [he] at hdig; exact absurd hdig.1 (by decide)
      have hc2 : c ≠ '-' := fun he => by rw [he] at hdig; exact absurd hdig.1 (by decide)
      rw [pyIntL, if_neg hc, if_neg hc2, pyDigits, if_pos hdig.1,
        pyDigitsGo_digits t _ hdig.2]
      rw [← hval, hd, charsToNat, List.foldl_cons]
      simp

/-! ## Stepping the selection loop -/

theorem selectLoop_cancel {α : Type} (versions : List α) (s : String)
    (rest : List ChooseEvent) (hq : pyLower (pyStrip s) = "q") :
    selectLoop versions (ChooseEvent.inp s :: rest) = some none := by
  rw [selectLoop, if_pos hq]

theorem selectLoop_invalid {α : Type} (versions : List α) (s : String)
    (rest : List ChooseEvent) (hq : pyLower (pyStrip s) ≠ "q")
    (hint : pyInt (pyStrip s) = none) :
    selectLoop versions (ChooseEvent.inp s :: rest) = selectLoop versions rest := by
  rw [selectLoop, if_neg hq]
  simp only [hint]

theorem selectLoop_out_of_range {α : Type} (versions : List α) (s : String)
    (k : Int) (rest : List ChooseEvent) (hq : pyLower (pyStrip s) ≠ "q")
    (hint : pyInt (pyStrip s) = some k)
    (hrange : k < 1 ∨ (versions.length : Int) < k) :
    selectLoop versions (ChooseEvent.inp s :: rest) = selectLoop versions rest := by
  rw [selectLoop, if_neg hq]
  simp only [hint]
  rcases hrange with h | h <;> rw [dif_neg (by omega)]

theorem selectLoop_select {α : Type} (versions : List α) (s : String)
    (k : Nat) (rest : List ChooseEvent) (hq : pyLower (pyStrip s) ≠ "q")
    (hint : pyInt (pyStrip s) = some (k : Int)) (h1 : 1 ≤ k)
    (hk : k ≤ versions.length) :
    selectLoop versions (ChooseEvent.inp s :: rest) =
      some (some (versions.get ⟨k - 1, by omega⟩)) := by
  rw [selectLoop, if_neg hq]
  simp only [hint]
  rw [dif_pos (by constructor <;> omega)]
  have ht : ((k : Int) - 1).toNat = k - 1 := by omega
  simp only [ht]

theorem pyInt_pyStrip (s : String) : pyInt (pyStrip s) = pyInt s := by
  rw [pyInt, pyInt, pyStrip_idem]

/-! ## Claim theorems: the version selector -/

/-- C1: for every non-empty version list of length `N`,
`select_version` returns the `k`-th version (1-based) as soon as the
input is the decimal string of an integer `k` with `1 ≤ k ≤ N`; the
cancel input returns no selection; earlier non-integer or out-of-range
inputs re-prompt without terminating the loop; and on `["a","b","c"]`
input `"2"` returns `"b"`, `"q"` returns no selection, and `"5"` then
`"1"` re-prompts once then returns `"a"`. -/
theorem select_version_interactive :
    (∀ (versions : List String), versions ≠ [] →
      (∀ (s : String) (k : Nat) (rest : List ChooseEvent),
          decimalRepr s k → ∀ (h1 : 1 ≤ k) (hk : k ≤ versions.length),
          select_version versions (ChooseEvent.inp s :: rest) =
            some (some (versions.get ⟨k - 1, by omega⟩))) ∧
      (∀ (s : String) (rest : List ChooseEvent), pyLower (pyStrip s) = "q" →
          select_version versions (ChooseEvent.inp s :: rest) = some none) ∧
      (∀ (s : String) (rest : List ChooseEvent), pyLower (pyStrip s) ≠ "q" →
          pyInt (pyStrip s) = none →
          select_version versions (ChooseEvent.inp s :: rest) =
            select_version versions rest) ∧
      (∀ (s : String) (k : Int) (rest : List ChooseEvent),
          pyLower (pyStrip s) ≠ "q" →
          pyInt (pyStrip s) = some k → (k < 1 ∨ (versions.length : Int) < k) →
          select_version versions (ChooseEvent.inp s :: rest) =
            select_version versions rest)) ∧
    select_version ["a", "b", "c"] [ChooseEvent.inp "2"] = some (some "b") ∧
    select_version ["a", "b", "c"] [ChooseEvent.inp "q"] = some none ∧
    select_version ["a", "b", "c"] [ChooseEvent.inp "5", ChooseEvent.inp "1"] =
      some (some "a") := by
  refine ⟨fun versions hne => ?_, rfl, rfl, rfl⟩
  have hne2 : versions.isEmpty = false := by simpa [List.isEmpty_iff] using hne
  refine ⟨?_, ?_, ?_, ?_⟩
  · intro s k rest hdec h1 hk
    rw [select_version, if_neg (by simp [hne2])]
    have hq : pyLower (pyStrip s) ≠ "q" := by
      rw [pyStrip_of_digits hdec.2.1]
      exact pyLower_digits_ne_q hdec.1 hdec.2.1
    have hint : pyInt (pyStrip s) = some (k : Int) := by
      rw [pyInt_pyStrip, pyInt_of_decimal hdec]
    exact selectLoop_select versions s k rest hq hint h1 hk
  · intro s rest hq
    rw [select_version, if_neg (by simp [hne2])]
    exact selectLoop_cancel versions s rest hq
  · intro s rest hq hint
    rw [select_version, select_version, if_neg (by simp [hne2]),
      if_neg (by simp [hne2])]
    exact selectLoop_invalid versions s rest hq hint
  · intro s k rest hq hint hrange
    rw [select_version, select_version, if_neg (by simp [hne2]),
      if_neg (by simp [hne2])]
    exact selectLoop_out_of_range versions s k rest hq hint hrange

/-- C1 witness: a concrete run through the hypothesis-bearing clause. -/
theorem select_version_interactive_witness :
    select_version ["x", "y", "z"] [ChooseEvent.inp "02"] = some (some "y") := by
  have h := (select_version_interactive.1 ["x", "y", "z"] (by decide)).1 "02" 2 []
    ⟨by decide, by decide, by decide⟩ (by decide) (by decide)
  exact h

/-- C10: the cancel input is matched case-insensitively after stripping
surrounding whitespace — any input whose stripped lower-cased form is
`"q"` cancels — and every input is processed through the same stripping
before comparison. -/
theorem select_cancel_stripped_case_insensitive :
    (∀ (versions : List String), versions ≠ [] →
      ∀ (s : String) (rest : List ChooseEvent), pyLower (pyStrip s) = "q" →
        select_version versions (ChooseEvent.inp s :: rest) = some none) ∧
    (∀ (versions : List String) (s : String) (rest : List ChooseEvent),
      select_version versions (ChooseEvent.inp s :: rest) =
        select_version versions (ChooseEvent.inp (pyStrip s) :: rest)) := by
  constructor
  · intro versions hne s rest hq
    rw [select_version,
      if_neg (by simp [show versions.isEmpty = false by simpa [List.isEmpty_iff] using hne])]
    exact selectLoop_cancel versions s rest hq
  · intro versions s rest
    by_cases he : versions.isEmpty
    · rw [select_version, select_version, if_pos he, if_pos he]
    · rw [select_version, select_version, if_neg he, if_neg he,
        selectLoop, selectLoop, pyStrip_idem]

/-- C10 witness: `"  Q  "` and `" q "` both cancel on a concrete list. -/
theorem select_cancel_stripped_case_insensitive_witness :
    select_version ["a", "b", "c"] [ChooseEvent.inp "  Q  "] = some none ∧
    select_version ["a", "b", "c"] [ChooseEvent.inp " q "] = some none :=
  ⟨select_cancel_stripped_case_insensitive.1 ["a", "b", "c"] (by decide) "  Q  " []
      (by decide),
    select_cancel_stripped_case_insensitive.1 ["a", "b", "c"] (by decide) " q " []
      (by decide)⟩

/-! ## Claim theorems: the template renderer -/

theorem placeholderTok_data_ne_nil (k : String) : (placeholderTok k).data ≠ [] := by
  rw [placeholderTok, String.data_append, String.data_append]
  simp [show ("$\x7b" : String).data = ['$', '\x7b'] from rfl]

theorem pyReplace_id (t old new : String) (ho : old.data ≠ [])
    (h : noOccur old.data t.data = true) : pyReplace t old new = t := by
  rw [pyReplace, if_neg (by simpa [List.isEmpty_iff] using ho),
    pyReplaceGo_id _ _ _ (noOccur_spec h)]

/-- C2: rendering replaces only the placeholder tokens that have a
matching key — a template containing no occurrence of any substituted
key's token is returned verbatim, without error — and in particular
the template with tokens `A` and `B` under the single substitution
`A := "1"` renders with the `B` token untouched. -/
theorem render_unmatched_passthrough :
    (∀ (t : String) (subs : List (String × String)),
        (∀ kv ∈ subs, noOccur (placeholderTok kv.1).data t.data = true) →
        renderSubst t subs = t) ∧
    renderSubst "X=$\x7bA\x7d Y=$\x7bB\x7d" [("A", "1")] = "X=1 Y=$\x7bB\x7d" := by
  constructor
  · intro t subs
    induction subs with
    | nil => intro _; rfl
    | cons kv rest ih =>
        intro h
        rw [renderSubst, List.foldl_cons,
          pyReplace_id t _ _ (placeholderTok_data_ne_nil kv.1)
            (h kv (List.mem_cons_self kv rest))]
        exact ih (fun kv2 hkv2 => h kv2 (List.mem_cons_of_mem kv hkv2))
  · simp +decide [renderSubst, pyReplace, pyReplaceGo, placeholderTok]

/-- C2 witness: a template whose only token has no matching key is
rendered unchanged. -/
theorem render_unmatched_passthrough_witness :
    renderSubst "A=$\x7bOTHER\x7d" [("QEMU_VERSION", "9")] = "A=$\x7bOTHER\x7d" :=
  render_unmatched_passthrough.1 _ _ (by decide)

/-- C5: when the template file does not exist, rendering returns the
failure value and performs no write — the whole file state, including
any pre-existing compose output, is returned unchanged. -/
theorem generate_missing_template (config : JValue) (fs : FS)
    (h : fs.templateExists = false) :
    generate_compose_file config fs = some (false, fs) := by
  rw [generate_compose_file, if_pos h]

/-- C5 witness. -/
theorem generate_missing_template_witness :
    generate_compose_file (JValue.obj []) ⟨false, "T", some "OLD"⟩ =
      some (false, ⟨false, "T", some "OLD"⟩) :=
  generate_missing_template _ _ rfl

theorem noStartAll_disjoint (old2 a : List Char) (ha : ∀ c ∈ a, c ≠ '$') :
    ∀ i, ¬ ('$' :: old2) <+: a.drop i := by
  intro i
  rcases lt_or_ge i a.length with hi | hi
  · have := no_start_in_disjoint '$' old2 a [] ha i hi
    simpa using this
  · rw [List.drop_eq_nil_of_le hi]
    intro hp
    simpa using List.prefix_nil.mp hp

theorem noStartAll_append (old a b : List Char)
    (h1 : ∀ i, i < a.length → ¬ old <+: (a ++ b).drop i)
    (h2 : ∀ i, ¬ old <+: b.drop i) : ∀ i, ¬ old <+: (a ++ b).drop i := by
  intro i
  rcases lt_or_ge i a.length with hi | hi
  · exact h1 i hi
  · exact not_prefix_drop_parts _ _ _ (fun h => absurd h (by omega)) (fun _ => h2 _)

/-- The emulator token starts nowhere inside `v ++ serverTok ++ w` when
`v` and `w` contain no dollar sign. -/
theorem noStart_qemu_in_vBw (v w : List Char)
    (hv : ∀ c ∈ v, c ≠ '$') (hw : ∀ c ∈ w, c ≠ '$') :
    ∀ i, ¬ qemuTok.data <+: (v ++ (serverTok.data ++ w)).drop i := by
  apply noStartAll_append
  · intro i hi
    rw [show qemuTok.data = '$' :: qemuTok.data.tail from rfl]
    exact no_start_in_disjoint '$' _ v _ hv i hi
  · apply noStartAll_append
    · intro i hi
      rcases Nat.eq_zero_or_pos i with rfl | hpos
      · rw [List.drop_zero]
        exact not_prefix_append_of_get_ne _ _ _ 2 (by decide) (by decide) (by decide)
      · refine not_prefix_drop_parts _ _ _ ?_ (fun hle => absurd hle (by omega))
        intro hlt
        rw [show qemuTok.data = '$' :: qemuTok.data.tail from rfl]
        exact not_prefix_drop_of_get_ne '$' _ _ _ i hlt (serverTok_inside i hlt hpos)
    · intro i
      have := noStartAll_disjoint qemuTok.data.tail w hw i
      rwa [← show qemuTok.data = '$' :: qemuTok.data.tail from rfl] at this

/-- Substituting the two tokens of a template with a single occurrence
of each, all surrounding text and the first value dollar-free. -/
theorem replace_two_tokens (u v w q g : List Char)
    (hu : ∀ c ∈ u, c ≠ '$') (hv : ∀ c ∈ v, c ≠ '$') (hw : ∀ c ∈ w, c ≠ '$')
    (hqd : ∀ c ∈ q, c ≠ '$') :
    pyReplaceGo serverTok.data g
      (pyReplaceGo qemuTok.data q
        (u ++ (qemuTok.data ++ (v ++ (serverTok.data ++ w))))) =
      u ++ (q ++ (v ++ (g ++ w))) := by
  have h1 : pyReplaceGo qemuTok.data q
      (u ++ (qemuTok.data ++ (v ++ (serverTok.data ++ w)))) =
      u ++ (q ++ (v ++ (serverTok.data ++ w))) := by
    rw [pyReplaceGo_append]
    · rw [pyReplaceGo_cons_eq _ _ _ (by decide),
        pyReplaceGo_id _ _ _ (fun i _ => noStart_qemu_in_vBw v w hv hw i)]
    · intro i hi
      rw [show qemuTok.data = '$' :: qemuTok.data.tail from rfl]
      exact no_start_in_disjoint '$' _ u _ hu i hi
  rw [h1,
    show u ++ (q ++ (v ++ (serverTok.data ++ w))) =
      ((u ++ q) ++ v) ++ (serverTok.data ++ w) from by simp [List.append_assoc]]
  rw [pyReplaceGo_append]
  · rw [pyReplaceGo_cons_eq _ _ _ (by decide)]
    rw [pyReplaceGo_id _ _ w (fun i _ => by
      have := noStartAll_disjoint serverTok.data.tail w hw i
      rwa [← show serverTok.data = '$' :: serverTok.data.tail from rfl] at this)]
    simp [List.append_assoc]
  · intro i hi
    rw [show serverTok.data = '$' :: serverTok.data.tail from rfl]
    refine no_start_in_disjoint '$' _ ((u ++ q) ++ v) _ ?_ i hi
    intro c hc
    rcases List.mem_append.mp hc with hc2 | hc2
    · rcases List.mem_append.mp hc2 with hc3 | hc3
      · exact hu c hc3
      · exact hqd c hc3
    · exact hv c hc2

/-- C6: with both default entries absent, rendering succeeds (absence
is not an error) and substitutes the literal fallback strings `"4.2.1"`
and `"2.2.40"` for the two placeholders. -/
theorem generate_fallback_defaults (config : JValue) (fs : FS) (u v w : String)
    (hq : jGet (get_defaults config) "qemu_version" = none)
    (hg : jGet (get_defaults config) "gns3_server_version" = none)
    (ht : fs.templateExists = true)
    (htm : fs.template = u ++ qemuTok ++ v ++ serverTok ++ w)
    (hu : ∀ c ∈ u.data, c ≠ '$') (hv : ∀ c ∈ v.data, c ≠ '$')
    (hw : ∀ c ∈ w.data, c ≠ '$') :
    generate_compose_file config fs =
      some (true, { fs with compose := some (u ++ "4.2.1" ++ v ++ "2.2.40" ++ w) }) := by
  have hl : pyReplace (pyReplace fs.template qemuTok "4.2.1") serverTok "2.2.40" =
      u ++ "4.2.1" ++ v ++ "2.2.40" ++ w := by
    unfold pyReplace
    rw [if_neg (by decide), if_neg (by decide)]
    rw [show (String.mk (pyReplaceGo qemuTok.data ("4.2.1").data fs.template.data)).data =
      pyReplaceGo qemuTok.data ("4.2.1").data fs.template.data from rfl]
    rw [htm,
      show (u ++ qemuTok ++ v ++ serverTok ++ w).data =
        u.data ++ (qemuTok.data ++ (v.data ++ (serverTok.data ++ w.data))) from by
        simp [String.data_append, List.append_assoc]]
    rw [replace_two_tokens u.data v.data w.data _ _ hu hv hw (by decide)]
    apply String.ext
    show u.data ++ (("4.2.1" : String).data ++ (v.data ++ (("2.2.40" : String).data ++ w.data))) =
      (u ++ "4.2.1" ++ v ++ "2.2.40" ++ w).data
    simp [String.data_append, List.append_assoc]
  unfold generate_compose_file jGetD
  simp only [hq, hg, Option.getD, asStr, ht]
  rw [if_neg (by simp), hl]

/-- C6 witness: a concrete template with both defaults absent. -/
theorem generate_fallback_defaults_witness :
    generate_compose_file (JValue.obj [])
        ⟨true, "image: gns3:$\x7bQEMU_VERSION\x7d-$\x7bGNS3_SERVER_VERSION\x7d", none⟩ =
      some (true, ⟨true, "image: gns3:$\x7bQEMU_VERSION\x7d-$\x7bGNS3_SERVER_VERSION\x7d",
        some "image: gns3:4.2.1-2.2.40"⟩) := by
  have h := generate_fallback_defaults (JValue.obj [])
    ⟨true, "image: gns3:$\x7bQEMU_VERSION\x7d-$\x7bGNS3_SERVER_VERSION\x7d", none⟩
    "image: gns3:" "-" "" rfl rfl rfl (by decide) (by decide) (by decide) (by decide)
  exact h

/-- C3 counterexample: with the emulator default set to the literal
server placeholder token and the template consisting of the emulator
token alone, the code's sequential replacement rewrites the token
inserted by the first pass — the output is the server value, while
simultaneous literal substitution of the original template leaves the
inserted token alone.  The claim's "output equals the simultaneous
literal substitution" is therefore false of the code. -/
theorem render_not_simultaneous_counterexample :
    generate_compose_file
        (JValue.obj [("defaults", JValue.obj
          [("qemu_version", JValue.str serverTok),
           ("gns3_server_version", JValue.str "X")])])
        ⟨true, qemuTok, none⟩ =
      some (true, ⟨true, qemuTok, some "X"⟩) ∧
    String.mk (simSubst serverTok.data "X".data qemuTok.data) = serverTok ∧
    ("X" : String) ≠ serverTok := by
  refine ⟨?_, ?_, by decide⟩
  · simp +decide [generate_compose_file, get_defaults, jGetD, jGet, dictGet, asStr,
      pyReplace, pyReplaceGo, qemuTok, serverTok]
  · simp +decide [simSubst, qemuTok, serverTok]

/-- C3 amended: the renderer performs sequential literal replacement —
all occurrences of the emulator token first, then all occurrences of
the server token in the result — which coincides with the simultaneous
literal substitution of the original template whenever the emulator
value is nonempty and shares no character with the server token (in
particular, whenever it does not contain the server placeholder). -/
theorem render_sequential_matches_simultaneous (config : JValue) (fs : FS)
    (q g : String)
    (hq : asStr (jGetD (get_defaults config) "qemu_version" (JValue.str "4.2.1")) =
      some q)
    (hg : asStr (jGetD (get_defaults config) "gns3_server_version"
      (JValue.str "2.2.40")) = some g)
    (ht : fs.templateExists = true)
    (hne : q.data ≠ []) (hdisj : ∀ c ∈ q.data, c ∉ serverTok.data) :
    generate_compose_file config fs =
      some (true, { fs with
        compose := some (String.mk (simSubst q.data g.data fs.template.data)) }) := by
  unfold generate_compose_file
  simp only [hq, hg, ht]
  rw [if_neg (by simp), seq_eq_sim q g fs.template hne hdisj]

/-- C3 amended witness: concrete defaults and template run through the
amended theorem. -/
theorem render_sequential_matches_simultaneous_witness :
    generate_compose_file
        (JValue.obj [("defaults", JValue.obj
          [("qemu_version", JValue.str "5.0"),
           ("gns3_server_version", JValue.str "3.1")])])
        ⟨true, "$\x7bQEMU_VERSION\x7d-$\x7bGNS3_SERVER_VERSION\x7d", none⟩ =
      some (true, ⟨true, "$\x7bQEMU_VERSION\x7d-$\x7bGNS3_SERVER_VERSION\x7d",
        some (String.mk (simSubst ("5.0" : String).data ("3.1" : String).data
          ("$\x7bQEMU_VERSION\x7d-$\x7bGNS3_SERVER_VERSION\x7d" : String).data))⟩) := by
  have h := render_sequential_matches_simultaneous
    (JValue.obj [("defaults", JValue.obj
      [("qemu_version", JValue.str "5.0"),
       ("gns3_server_version", JValue.str "3.1")])])
    ⟨true, "$\x7bQEMU_VERSION\x7d-$\x7bGNS3_SERVER_VERSION\x7d", none⟩
    "5.0" "3.1" rfl rfl rfl (by decide) (by decide)
  exact h

/-! ## Round trip: dumped strings parse back -/

theorem readHex4_hex4 (n : Nat) (hn : n < 65536) (rest : List Char) :
    readHex4 (hex4 n ++ rest) = some (n, rest) := by
  have hd : ∀ d, d < 16 → hexVal (hexDig d) = some d := by decide
  rw [hex4]
  simp only [List.cons_append, List.nil_append, readHex4]
  rw [hd (n / 4096 % 16) (by omega), hd (n / 256 % 16) (by omega),
    hd (n / 16 % 16) (by omega), hd (n % 16) (by omega)]
  have hv : (((n / 4096 % 16) * 16 + n / 256 % 16) * 16 + n / 16 % 16) * 16 + n % 16 = n := by
    omega
  simp [hv]

theorem hex4_length (n : Nat) : (hex4 n).length = 4 := rfl

set_option maxHeartbeats 2000000 in
theorem escapeChar_length_pos (c : Char) : 1 ≤ (escapeChar c).length := by
  unfold escapeChar
  split_ifs <;>
    simp only [hex4_length, List.length_append, List.length_cons,
      List.length_singleton, List.length_nil] <;> omega

theorem escapeList_length (cs : List Char) : cs.length ≤ (escapeList cs).length := by
  induction cs with
  | nil => simp [escapeList]
  | cons c cs ih =>
      unfold escapeList at ih ⊢
      rw [List.flatMap_cons, List.length_append, List.length_cons]
      have := escapeChar_length_pos c
      omega

theorem parseStrBodyF_rt :
    ∀ (cs rest : List Char) (fuel : Nat), cs.length < fuel →
      parseStrBodyF fuel (escapeList cs ++ '"' :: rest) = some (cs, rest) := by
  intro cs
  induction cs with
  | nil =>
      intro rest fuel hf
      obtain ⟨f, rfl⟩ : ∃ f, fuel = f + 1 := ⟨fuel - 1, by omega⟩
      rw [show escapeList [] ++ '"' :: rest = '"' :: rest from by simp [escapeList]]
      rfl
  | cons c cs ih =>
      intro rest fuel hf
      obtain ⟨f, rfl⟩ : ∃ f, fuel = f + 1 := ⟨fuel - 1, by omega⟩
      have ihf : parseStrBodyF f (escapeList cs ++ '"' :: rest) = some (cs, rest) :=
        ih rest f (by simp only [List.length_cons] at hf; omega)
      rw [show escapeList (c :: cs) = escapeChar c ++ escapeList cs from
        List.flatMap_cons c cs escapeChar]
      rw [List.append_assoc]
      by_cases h1 : c = '"'
      · subst h1
        rw [show escapeChar '"' ++ (escapeList cs ++ '"' :: rest) =
          '\\' :: '"' :: (escapeList cs ++ '"' :: rest) from rfl]
        simp +decide [parseStrBodyF, escShort, ihf]
      · by_cases h2 : c = '\\'
        · subst h2
          rw [show escapeChar '\\' ++ (escapeList cs ++ '"' :: rest) =
            '\\' :: '\\' :: (escapeList cs ++ '"' :: rest) from rfl]
          simp +decide [parseStrBodyF, escShort, ihf]
        · by_cases h3 : c = '\n'
          · subst h3
            rw [show escapeChar '\n' ++ (escapeList cs ++ '"' :: rest) =
              '\\' :: 'n' :: (escapeList cs ++ '"' :: rest) from rfl]
            simp +decide [parseStrBodyF, escShort, ihf]
          · by_cases h4 : c = '\t'
            · subst h4
              rw [show escapeChar '\t' ++ (escapeList cs ++ '"' :: rest) =
                '\\' :: 't' :: (escapeList cs ++ '"' :: rest) from rfl]
              simp +decide [parseStrBodyF, escShort, ihf]
            · by_cases h5 : c = '\r'
              · subst h5
                rw [show escapeChar '\r' ++ (escapeList cs ++ '"' :: rest) =
                  '\\' :: 'r' :: (escapeList cs ++ '"' :: rest) from rfl]
                simp +decide [parseStrBodyF, escShort, ihf]
              · by_cases h6 : c = '\x08'
                · subst h6
                  rw [show escapeChar '\x08' ++ (escapeList cs ++ '"' :: rest) =
                    '\\' :: 'b' :: (escapeList cs ++ '"' :: rest) from rfl]
                  simp +decide [parseStrBodyF, escShort, ihf]
                · by_cases h7 : c = '\x0c'
                  · subst h7
                    rw [show escapeChar '\x0c' ++ (escapeList cs ++ '"' :: rest) =
                      '\\' :: 'f' :: (escapeList cs ++ '"' :: rest) from rfl]
                    simp +decide [parseStrBodyF, escShort, ihf]
                  · by_cases h8 : c.toNat < 0x20
                    · -- unescaped control character: `\u00xx`
                      have he : escapeChar c = '\\' :: 'u' :: hex4 c.toNat := by
                        unfold escapeChar
                        rw [if_neg h1, if_neg h2, if_neg h3, if_neg h4, if_neg h5,
                          if_neg h6, if_neg h7, if_pos h8]
                      rw [he,
                        show ('\\' :: 'u' :: hex4 c.toNat) ++ (escapeList cs ++ '"' :: rest) =
                          '\\' :: 'u' :: (hex4 c.toNat ++ (escapeList cs ++ '"' :: rest))
                          from by simp]
                      rw [parseStrBodyF.eq_def]
                      simp +decide [readHex4_hex4 c.toNat (by omega)
                          (escapeList cs ++ '"' :: rest),
                        eq_false (show ¬(0xd800 ≤ c.toNat ∧ c.toNat < 0xdc00) by omega),
                        eq_false (show ¬(0xdc00 ≤ c.toNat ∧ c.toNat < 0xe000) by omega),
                        ihf, Char.ofNat_toNat]
                    · by_cases h9 : c.toNat < 0x7f
                      · -- plain printable ASCII: the character itself
                        have he : escapeChar c = [c] := by
                          unfold escapeChar
                          rw [if_neg h1, if_neg h2, if_neg h3, if_neg h4, if_neg h5,
                            if_neg h6, if_neg h7, if_neg h8, if_pos h9]
                        rw [he, List.singleton_append, parseStrBodyF.eq_def]
                        simp [h1, h2, h8, ihf]
                      · by_cases h10 : c.toNat < 0x10000
                        · -- basic-plane non-ASCII: `\uXXXX`
                          have hval : c.toNat < 0xd800 ∨
                              (0xdfff < c.toNat ∧ c.toNat < 0x110000) := c.valid
                          have he : escapeChar c = '\\' :: 'u' :: hex4 c.toNat := by
                            unfold escapeChar
                            rw [if_neg h1, if_neg h2, if_neg h3, if_neg h4, if_neg h5,
                              if_neg h6, if_neg h7, if_neg h8, if_neg h9, if_pos h10]
                          rw [he,
                            show ('\\' :: 'u' :: hex4 c.toNat) ++
                                (escapeList cs ++ '"' :: rest) =
                              '\\' :: 'u' :: (hex4 c.toNat ++ (escapeList cs ++ '"' :: rest))
                              from by simp]
                          rw [parseStrBodyF.eq_def]
                          simp +decide [readHex4_hex4 c.toNat (by omega)
                              (escapeList cs ++ '"' :: rest),
                            eq_false (show ¬(0xd800 ≤ c.toNat ∧ c.toNat < 0xdc00) by omega),
                            eq_false (show ¬(0xdc00 ≤ c.toNat ∧ c.toNat < 0xe000) by omega),
                            ihf, Char.ofNat_toNat]
                        · -- astral plane: surrogate pair
                          have hval : c.toNat < 0xd800 ∨
                              (0xdfff < c.toNat ∧ c.toNat < 0x110000) := c.valid
                          have hhi : 0xd800 ≤ 0xd800 + (c.toNat - 0x10000) / 0x400 ∧
                              0xd800 + (c.toNat - 0x10000) / 0x400 < 0xdc00 := by omega
                          have hlo : 0xdc00 ≤ 0xdc00 + (c.toNat - 0x10000) % 0x400 ∧
                              0xdc00 + (c.toNat - 0x10000) % 0x400 < 0xe000 := by omega
                          have he : escapeChar c =
                              '\\' :: 'u' :: hex4 (0xd800 + (c.toNat - 0x10000) / 0x400) ++
                                '\\' :: 'u' :: hex4 (0xdc00 + (c.toNat - 0x10000) % 0x400) := by
                            unfold escapeChar
                            rw [if_neg h1, if_neg h2, if_neg h3, if_neg h4, if_neg h5,
                              if_neg h6, if_neg h7, if_neg h8, if_neg h9, if_neg h10]
                          rw [he,
                            show ('\\' :: 'u' :: hex4 (0xd800 + (c.toNat - 0x10000) / 0x400) ++
                                '\\' :: 'u' :: hex4 (0xdc00 + (c.toNat - 0x10000) % 0x400)) ++
                                (escapeList cs ++ '"' :: rest) =
                              '\\' :: 'u' ::
                                (hex4 (0xd800 + (c.toNat - 0x10000) / 0x400) ++
                                  ('\\' :: 'u' ::
                                    (hex4 (0xdc00 + (c.toNat - 0x10000) % 0x400) ++
                                      (escapeList cs ++ '"' :: rest)))) from by simp]
                          have hcomb : 0x10000 +
                              (0xd800 + (c.toNat - 0x10000) / 0x400 - 0xd800) * 0x400 +
                              (0xdc00 + (c.toNat - 0x10000) % 0x400 - 0xdc00) = c.toNat := by
                            omega
                          rw [parseStrBodyF.eq_def]
                          simp +decide [readHex4_hex4
                              (0xd800 + (c.toNat - 0x10000) / 0x400) (by omega) _,
                            readHex4_hex4
                              (0xdc00 + (c.toNat - 0x10000) % 0x400) (by omega) _,
                            eq_true hhi, eq_true hlo, ihf, hcomb, Char.ofNat_toNat]
                          simp [hhi.2, hlo.2]
                          rw [show 65536 + (c.toNat - 65536) / 1024 * 1024 +
                              (c.toNat - 65536) % 1024 = c.toNat from by omega,
                            Char.ofNat_toNat]

/-- Round trip of a dumped string through the scanner, at the fuel the
parser supplies itself. -/
theorem parseStrBody_rt (cs rest : List Char) :
    parseStrBody (escapeList cs ++ '"' :: rest) = some (cs, rest) := by
  apply parseStrBodyF_rt
  have := escapeList_length cs
  simp only [List.length_append, List.length_cons]
  omega

/-! ## Round trip: whitespace, heads and costs -/

theorem mk_data (s : String) : String.mk s.data = s := rfl

theorem skipWs_not_ws {c : Char} (h : isJsonWs c = false) (r : List Char) :
    skipWs (c :: r) = c :: r := by
  rw [skipWs, List.dropWhile_cons, if_neg (by simp [h])]

theorem skipWs_replicate (n : Nat) (x : List Char) :
    List.dropWhile isJsonWs (List.replicate n ' ' ++ x) = List.dropWhile isJsonWs x := by
  induction n with
  | zero => simp
  | succ n ih =>
      rw [List.replicate_succ, List.cons_append, List.dropWhile_cons, if_pos (by decide)]
      exact ih

theorem skipWs_nlIndent (lvl : Nat) (x : List Char) :
    skipWs (nlIndent lvl ++ x) = skipWs x := by
  rw [nlIndent, List.cons_append, skipWs, skipWs, List.dropWhile_cons, if_pos (by decide)]
  exact skipWs_replicate _ _

theorem skipWs_space (x : List Char) : skipWs ([' '] ++ x) = skipWs x := by
  rw [List.singleton_append, skipWs, skipWs, List.dropWhile_cons, if_pos (by decide)]

theorem skipWs_nil_pre (x : List Char) : skipWs ([] ++ x) = skipWs x := by
  rw [List.nil_append]

theorem dumpVal_head (lvl : Nat) (v : JValue) :
    ∃ t, dumpVal lvl v = '"' :: t ∨ dumpVal lvl v = '[' :: t ∨
      dumpVal lvl v = '\x7b' :: t := by
  cases v with
  | str s => exact ⟨escapeList s.data ++ ['"'], Or.inl (by simp [dumpVal, quoteStr])⟩
  | arr xs =>
      cases xs with
      | nil => exact ⟨[']'], Or.inr (Or.inl (by simp [dumpVal]))⟩
      | cons x xs =>
          exact ⟨nlIndent (lvl + 1) ++ dumpItems (lvl + 1) x xs ++ nlIndent lvl ++ [']'],
            Or.inr (Or.inl (by simp [dumpVal]))⟩
  | obj kvs =>
      cases kvs with
      | nil => exact ⟨['\x7d'], Or.inr (Or.inr (by simp [dumpVal]))⟩
      | cons kv kvs =>
          exact ⟨nlIndent (lvl + 1) ++ dumpMembers (lvl + 1) kv kvs ++ nlIndent lvl ++
              ['\x7d'], Or.inr (Or.inr (by simp [dumpVal]))⟩

theorem skipWs_dumpVal (lvl : Nat) (v : JValue) (rest : List Char) :
    skipWs (dumpVal lvl v ++ rest) = dumpVal lvl v ++ rest := by
  obtain ⟨t, h | h | h⟩ := dumpVal_head lvl v <;>
    rw [h, List.cons_append] <;> exact skipWs_not_ws (by decide) _

theorem dumpItems_cons_eq (lvl : Nat) (x : JValue) (xs : List JValue) (T : List Char) :
    ∃ T2, dumpItems lvl x xs ++ T = dumpVal lvl x ++ T2 := by
  cases xs with
  | nil => exact ⟨T, by simp [dumpItems]⟩
  | cons y ys =>
      exact ⟨',' :: (nlIndent lvl ++ (dumpItems lvl y ys ++ T)),
        by simp [dumpItems, List.append_assoc]⟩

theorem cost_pos (v : JValue) : 1 ≤ cost v := by
  cases v with
  | str s => simp [cost]
  | arr xs => cases xs <;> simp [cost]
  | obj kvs => cases kvs <;> simp [cost]

theorem costItems_pos (x : JValue) (xs : List JValue) : 1 ≤ costItems x xs := by
  cases xs <;> simp [costItems]

theorem costMembers_pos (kv : String × JValue) (kvs : List (String × JValue)) :
    1 ≤ costMembers kv kvs := by
  obtain ⟨k, v⟩ := kv
  cases kvs <;> simp [costMembers]

/-- The parser inverts the dumper: with fuel at least the document's
cost, a dumped value (under any leading whitespace) parses back to
itself, and likewise for dumped item and member lists up to their
closing delimiter. -/
theorem parse_rt (fuel : Nat) :
    (∀ (v : JValue) (lvl : Nat) (pre rest : List Char),
        (∀ y, skipWs (pre ++ y) = skipWs y) → cost v ≤ fuel →
        parseVal fuel (pre ++ (dumpVal lvl v ++ rest)) = some (v, rest)) ∧
    (∀ (x : JValue) (xs : List JValue) (lvl m : Nat) (pre rest : List Char),
        (∀ y, skipWs (pre ++ y) = skipWs y) → costItems x xs ≤ fuel →
        parseItems fuel
            (pre ++ (dumpItems lvl x xs ++ (nlIndent m ++ (']' :: rest)))) =
          some (x :: xs, rest)) ∧
    (∀ (kv : String × JValue) (kvs : List (String × JValue)) (lvl m : Nat)
        (pre rest : List Char),
        (∀ y, skipWs (pre ++ y) = skipWs y) → costMembers kv kvs ≤ fuel →
        parseMembers fuel
            (pre ++ (dumpMembers lvl kv kvs ++ (nlIndent m ++ ('\x7d' :: rest)))) =
          some (kv :: kvs, rest)) := by
  induction fuel with
  | zero =>
      refine ⟨fun v _ _ _ _ hc => absurd hc (by have := cost_pos v; omega),
        fun x xs _ _ _ _ _ hc => absurd hc (by have := costItems_pos x xs; omega),
        fun kv kvs _ _ _ _ _ hc => absurd hc (by have := costMembers_pos kv kvs; omega)⟩
  | succ f ih =>
      obtain ⟨ihV, ihI, ihM⟩ := ih
      refine ⟨?_, ?_, ?_⟩
      · -- parseVal
        intro v lvl pre rest hpre hcost
        cases v with
        | str s =>
            have hskip : skipWs (pre ++ (dumpVal lvl (JValue.str s) ++ rest)) =
                '"' :: (escapeList s.data ++ ('"' :: rest)) := by
              rw [hpre]
              rw [show dumpVal lvl (JValue.str s) ++ rest =
                '"' :: (escapeList s.data ++ ('"' :: rest)) from by
                  simp [dumpVal, quoteStr]]
              exact skipWs_not_ws (by decide) _
            rw [parseVal.eq_def]
            simp only [hskip]
            simp +decide [parseStrBody_rt s.data rest, mk_data]
        | arr xs =>
            cases xs with
            | nil =>
                have hskip : skipWs (pre ++ (dumpVal lvl (JValue.arr []) ++ rest)) =
                    '[' :: (']' :: rest) := by
                  rw [hpre,
                    show dumpVal lvl (JValue.arr []) ++ rest = '[' :: (']' :: rest)
                      from by simp [dumpVal]]
                  exact skipWs_not_ws (by decide) _
                rw [parseVal.eq_def]
                simp only [hskip]
                simp +decide [skipWs_not_ws (show isJsonWs ']' = false by decide) rest]
            | cons x xs =>
                have hshape : dumpVal lvl (JValue.arr (x :: xs)) ++ rest =
                    '[' :: (nlIndent (lvl + 1) ++
                      (dumpItems (lvl + 1) x xs ++ (nlIndent lvl ++ (']' :: rest)))) := by
                  simp [dumpVal, List.append_assoc]
                have hskip : skipWs (pre ++ (dumpVal lvl (JValue.arr (x :: xs)) ++ rest)) =
                    '[' :: (nlIndent (lvl + 1) ++
                      (dumpItems (lvl + 1) x xs ++ (nlIndent lvl ++ (']' :: rest)))) := by
                  rw [hpre, hshape]
                  exact skipWs_not_ws (by decide) _
                obtain ⟨T2, hT2⟩ :=
                  dumpItems_cons_eq (lvl + 1) x xs (nlIndent lvl ++ (']' :: rest))
                have hinner : skipWs (nlIndent (lvl + 1) ++
                    (dumpItems (lvl + 1) x xs ++ (nlIndent lvl ++ (']' :: rest)))) =
                    dumpVal (lvl + 1) x ++ T2 := by
                  rw [skipWs_nlIndent, hT2, skipWs_dumpVal]
                obtain ⟨t, hh | hh | hh⟩ := dumpVal_head (lvl + 1) x
                all_goals
                  rw [parseVal.eq_def]
                  simp only [hskip]
                  rw [hh, List.cons_append] at hinner
                  simp only [hinner]
                  simp +decide [ihI x xs (lvl + 1) lvl (nlIndent (lvl + 1)) rest
                    (fun y => skipWs_nlIndent (lvl + 1) y)
                    (by simp [cost] at hcost; omega)]
        | obj kvs =>
            cases kvs with
            | nil =>
                have hskip : skipWs (pre ++ (dumpVal lvl (JValue.obj []) ++ rest)) =
                    '\x7b' :: ('\x7d' :: rest) := by
                  rw [hpre,
                    show dumpVal lvl (JValue.obj []) ++ rest = '\x7b' :: ('\x7d' :: rest)
                      from by simp [dumpVal]]
                  exact skipWs_not_ws (by decide) _
                rw [parseVal.eq_def]
                simp only [hskip]
                simp +decide [skipWs_not_ws (show isJsonWs '\x7d' = false by decide) rest]
            | cons kv kvs =>
                have hshape : dumpVal lvl (JValue.obj (kv :: kvs)) ++ rest =
                    '\x7b' :: (nlIndent (lvl + 1) ++
                      (dumpMembers (lvl + 1) kv kvs ++
                        (nlIndent lvl ++ ('\x7d' :: rest)))) := by
                  simp [dumpVal, List.append_assoc]
                have hskip : skipWs (pre ++
                    (dumpVal lvl (JValue.obj (kv :: kvs)) ++ rest)) =
                    '\x7b' :: (nlIndent (lvl + 1) ++
                      (dumpMembers (lvl + 1) kv kvs ++
                        (nlIndent lvl ++ ('\x7d' :: rest)))) := by
                  rw [hpre, hshape]
                  exact skipWs_not_ws (by decide) _
                obtain ⟨k, v⟩ := kv
                have hmshape : ∃ T3, dumpMembers (lvl + 1) (k, v) kvs ++
                    (nlIndent lvl ++ ('\x7d' :: rest)) =
                    '"' :: T3 := by
                  cases kvs with
                  | nil =>
                      exact ⟨escapeList k.data ++ ('"' :: (':' :: (' ' ::
                        (dumpVal (lvl + 1) v ++ (nlIndent lvl ++ ('\x7d' :: rest)))))),
                        by simp [dumpMembers, quoteStr, List.append_assoc]⟩
                  | cons kv2 kvs2 =>
                      exact ⟨escapeList k.data ++ ('"' :: (':' :: (' ' ::
                        (dumpVal (lvl + 1) v ++ (',' :: (nlIndent (lvl + 1) ++
                          (dumpMembers (lvl + 1) kv2 kvs2 ++
                            (nlIndent lvl ++ ('\x7d' :: rest))))))))),
                        by simp [dumpMembers, quoteStr, List.append_assoc]⟩
                obtain ⟨T3, hT3⟩ := hmshape
                have hinner : skipWs (nlIndent (lvl + 1) ++
                    (dumpMembers (lvl + 1) (k, v) kvs ++
                      (nlIndent lvl ++ ('\x7d' :: rest)))) = '"' :: T3 := by
                  rw [skipWs_nlIndent, hT3]
                  exact skipWs_not_ws (by decide) _
                rw [parseVal.eq_def]
                simp only [hskip]
                simp only [hinner]
                simp +decide [ihM (k, v) kvs (lvl + 1) lvl (nlIndent (lvl + 1)) rest
                  (fun y => skipWs_nlIndent (lvl + 1) y)
                  (by simp [cost] at hcost; omega)]
      · -- parseItems
        intro x xs lvl m pre rest hpre hcost
        cases xs with
        | nil =>
            have hval := ihV x lvl pre (nlIndent m ++ (']' :: rest)) hpre
              (by simp [costItems] at hcost; omega)
            rw [parseItems.eq_def]
            rw [show pre ++ (dumpItems lvl x [] ++ (nlIndent m ++ (']' :: rest))) =
              pre ++ (dumpVal lvl x ++ (nlIndent m ++ (']' :: rest))) from by
                simp [dumpItems]]
            simp only [hval]
            have hsk : skipWs (nlIndent m ++ (']' :: rest)) = ']' :: rest := by
              rw [skipWs_nlIndent]
              exact skipWs_not_ws (by decide) _
            simp +decide [hsk]
        | cons y ys =>
            have hval := ihV x lvl pre
              (',' :: (nlIndent lvl ++ (dumpItems lvl y ys ++
                (nlIndent m ++ (']' :: rest))))) hpre
              (by simp [costItems] at hcost; omega)
            rw [parseItems.eq_def]
            rw [show pre ++ (dumpItems lvl x (y :: ys) ++ (nlIndent m ++ (']' :: rest))) =
              pre ++ (dumpVal lvl x ++ (',' :: (nlIndent lvl ++ (dumpItems lvl y ys ++
                (nlIndent m ++ (']' :: rest)))))) from by
                  simp [dumpItems, List.append_assoc]]
            simp only [hval]
            have hsk : skipWs (',' :: (nlIndent lvl ++ (dumpItems lvl y ys ++
                (nlIndent m ++ (']' :: rest))))) =
                ',' :: (nlIndent lvl ++ (dumpItems lvl y ys ++
                  (nlIndent m ++ (']' :: rest)))) :=
              skipWs_not_ws (by decide) _
            simp only [hsk]
            simp +decide [ihI y ys lvl m (nlIndent lvl) rest
              (fun z => skipWs_nlIndent lvl z)
              (by simp [costItems] at hcost; omega)]
      · -- parseMembers
        rintro ⟨k, v⟩ kvs lvl m pre rest hpre hcost
        cases kvs with
        | nil =>
            have hshape : dumpMembers lvl (k, v) [] ++ (nlIndent m ++ ('\x7d' :: rest)) =
                '"' :: (escapeList k.data ++ ('"' :: (':' :: (' ' ::
                  (dumpVal lvl v ++ (nlIndent m ++ ('\x7d' :: rest))))))) := by
              simp [dumpMembers, quoteStr, List.append_assoc]
            have hskip : skipWs (pre ++ (dumpMembers lvl (k, v) [] ++
                (nlIndent m ++ ('\x7d' :: rest)))) =
                '"' :: (escapeList k.data ++ ('"' :: (':' :: (' ' ::
                  (dumpVal lvl v ++ (nlIndent m ++ ('\x7d' :: rest))))))) := by
              rw [hpre, hshape]
              exact skipWs_not_ws (by decide) _
            have hstr := parseStrBody_rt k.data
              (':' :: (' ' :: (dumpVal lvl v ++ (nlIndent m ++ ('\x7d' :: rest)))))
            have hsk1 : skipWs (':' :: (' ' :: (dumpVal lvl v ++
                (nlIndent m ++ ('\x7d' :: rest))))) =
                ':' :: (' ' :: (dumpVal lvl v ++ (nlIndent m ++ ('\x7d' :: rest)))) :=
              skipWs_not_ws (by decide) _
            have hval := ihV v lvl [' '] (nlIndent m ++ ('\x7d' :: rest))
              (fun y => skipWs_space y) (by simp [costMembers] at hcost; omega)
            rw [List.singleton_append] at hval
            have hsk2 : skipWs (nlIndent m ++ ('\x7d' :: rest)) = '\x7d' :: rest := by
              rw [skipWs_nlIndent]
              exact skipWs_not_ws (by decide) _
            rw [parseMembers.eq_def]
            simp only [hskip]
            simp +decide [hstr, hsk1, hval, hsk2, mk_data]
        | cons kv2 kvs2 =>
            have hshape : dumpMembers lvl (k, v) (kv2 :: kvs2) ++
                (nlIndent m ++ ('\x7d' :: rest)) =
                '"' :: (escapeList k.data ++ ('"' :: (':' :: (' ' ::
                  (dumpVal lvl v ++ (',' :: (nlIndent lvl ++
                    (dumpMembers lvl kv2 kvs2 ++
                      (nlIndent m ++ ('\x7d' :: rest)))))))))) := by
              simp [dumpMembers, quoteStr, List.append_assoc]
            have hskip : skipWs (pre ++ (dumpMembers lvl (k, v) (kv2 :: kvs2) ++
                (nlIndent m ++ ('\x7d' :: rest)))) =
                '"' :: (escapeList k.data ++ ('"' :: (':' :: (' ' ::
                  (dumpVal lvl v ++ (',' :: (nlIndent lvl ++
                    (dumpMembers lvl kv2 kvs2 ++
                      (nlIndent m ++ ('\x7d' :: rest)))))))))) := by
              rw [hpre, hshape]
              exact skipWs_not_ws (by decide) _
            have hstr := parseStrBody_rt k.data
              (':' :: (' ' :: (dumpVal lvl v ++ (',' :: (nlIndent lvl ++
                (dumpMembers lvl kv2 kvs2 ++ (nlIndent m ++ ('\x7d' :: rest))))))))
            have hsk1 : skipWs (':' :: (' ' :: (dumpVal lvl v ++ (',' :: (nlIndent lvl ++
                (dumpMembers lvl kv2 kvs2 ++ (nlIndent m ++ ('\x7d' :: rest)))))))) =
                ':' :: (' ' :: (dumpVal lvl v ++ (',' :: (nlIndent lvl ++
                  (dumpMembers lvl kv2 kvs2 ++ (nlIndent m ++ ('\x7d' :: rest))))))) :=
              skipWs_not_ws (by decide) _
            have hval := ihV v lvl [' ']
              (',' :: (nlIndent lvl ++ (dumpMembers lvl kv2 kvs2 ++
                (nlIndent m ++ ('\x7d' :: rest)))))
              (fun y => skipWs_space y) (by simp [costMembers] at hcost; omega)
            rw [List.singleton_append] at hval
            have hsk2 : skipWs (',' :: (nlIndent lvl ++ (dumpMembers lvl kv2 kvs2 ++
                (nlIndent m ++ ('\x7d' :: rest))))) =
                ',' :: (nlIndent lvl ++ (dumpMembers lvl kv2 kvs2 ++
                  (nlIndent m ++ ('\x7d' :: rest)))) :=
              skipWs_not_ws (by decide) _
            rw [parseMembers.eq_def]
            simp only [hskip]
            simp +decide [hstr, hsk1, hval, hsk2, mk_data,
              ihM kv2 kvs2 lvl m (nlIndent lvl) rest
                (fun z => skipWs_nlIndent lvl z)
                (by simp [costMembers] at hcost; omega)]

theorem nlIndent_length (k : Nat) : (nlIndent k).length = 1 + 2 * k := by
  simp [nlIndent]
  omega

mutual

theorem costLe (lvl : Nat) : ∀ v : JValue, cost v ≤ (dumpVal lvl v).length
  | JValue.str s => by
      simp [cost, dumpVal, quoteStr]
  | JValue.arr [] => by simp [cost, dumpVal]
  | JValue.arr (x :: xs) => by
      have h := costItemsLe (lvl + 1) x xs
      simp only [cost, dumpVal, List.length_cons, List.length_append,
        nlIndent_length, List.length_singleton]
      omega
  | JValue.obj [] => by simp [cost, dumpVal]
  | JValue.obj (kv :: kvs) => by
      have h := costMembersLe (lvl + 1) kv kvs
      simp only [cost, dumpVal, List.length_cons, List.length_append,
        nlIndent_length, List.length_singleton]
      omega
termination_by v => sizeOf v

theorem costItemsLe (lvl : Nat) :
    ∀ (x : JValue) (xs : List JValue),
      costItems x xs ≤ (dumpItems lvl x xs).length + 1
  | x, [] => by
      have h := costLe lvl x
      simp only [costItems, dumpItems]
      omega
  | x, y :: ys => by
      have h1 := costLe lvl x
      have h2 := costItemsLe lvl y ys
      simp only [costItems, dumpItems, List.length_append, List.length_cons,
        nlIndent_length]
      omega
termination_by x xs => sizeOf x + sizeOf xs

theorem costMembersLe (lvl : Nat) :
    ∀ (kv : String × JValue) (kvs : List (String × JValue)),
      costMembers kv kvs ≤ (dumpMembers lvl kv kvs).length + 1
  | (k, v), [] => by
      have h := costLe lvl v
      simp only [costMembers, dumpMembers, List.length_append, List.length_cons]
      omega
  | (k, v), kv2 :: kvs2 => by
      have h1 := costLe lvl v
      have h2 := costMembersLe lvl kv2 kvs2
      simp only [costMembers, dumpMembers, List.length_append, List.length_cons,
        nlIndent_length]
      omega
termination_by kv kvs => sizeOf kv + sizeOf kvs

end

/-- `json.load` inverts `json.dump(…, indent=2)` on every document. -/
theorem parse_dumps (v : JValue) : parseJ (dumps v) = some v := by
  rw [parseJ]
  rw [show (dumps v).data = dumpVal 0 v from rfl]
  have h := (parse_rt ((dumpVal 0 v).length + 1)).1 v 0 [] []
    (fun y => by rw [List.nil_append])
    (by have := costLe 0 v; omega)
  rw [List.nil_append, List.append_nil] at h
  rw [h]
  simp [skipWs]

/-! ## Claim theorems: persistence -/

theorem dictGet_none_iff_not_any {β : Type} (kvs : List (String × β)) (k : String) :
    dictGet kvs k = none ↔ kvs.any (fun kv => kv.1 = k) = false := by
  induction kvs with
  | nil => simp [dictGet]
  | cons kv rest ih =>
      obtain ⟨k2, x⟩ := kv
      by_cases h : k2 = k
      · subst h
        simp [dictGet]
      · simp [dictGet, h, ih]

/-- C7: loading a configuration file, saving the loaded document back,
and re-loading yields a document equal to the first load — `save ∘
load` is idempotent. -/
theorem load_save_reload (content : String) (v : JValue) :
    parseJ content = some v → parseJ (dumps v) = some v :=
  fun _ => parse_dumps v

/-- C7 witness: a concrete configuration text. -/
theorem load_save_reload_witness :
    parseJ (dumps (JValue.obj
      [("defaults", JValue.obj [("qemu_version", JValue.str "4.2.1")]),
       ("available_versions", JValue.obj
         [("qemu", JValue.arr [JValue.str "4.2.1", JValue.str "5.0"])])])) =
      some (JValue.obj
        [("defaults", JValue.obj [("qemu_version", JValue.str "4.2.1")]),
         ("available_versions", JValue.obj
           [("qemu", JValue.arr [JValue.str "4.2.1", JValue.str "5.0"])])]) :=
  load_save_reload
    "\x7b \"defaults\": \x7b \"qemu_version\": \"4.2.1\" \x7d, \"available_versions\": \x7b \"qemu\": [\"4.2.1\", \"5.0\"] \x7d \x7d"
    _ (by rfl)

/-- C4: `update_default` stores the version under
`<component>_version` in the defaults mapping and persists the
configuration: afterwards the defaults contain the entry, the file
holds the dump of the document, and re-loading the persisted file
yields the same document (hence the same defaults mapping). -/
theorem update_default_persists (st : MState) (component version : String)
    (kvs : List (String × JValue)) (hobj : st.config = JValue.obj kvs)
    (hdef : jGet st.config "defaults" = none ∨
      ∃ dkvs, jGet st.config "defaults" = some (JValue.obj dkvs)) :
    jGet (get_defaults (update_default st component (JValue.str version)).config)
        (component ++ "_version") = some (JValue.str version) ∧
    (update_default st component (JValue.str version)).file =
      dumps (update_default st component (JValue.str version)).config ∧
    parseJ (update_default st component (JValue.str version)).file =
      some (update_default st component (JValue.str version)).config := by
  have hfile : (update_default st component (JValue.str version)).file =
      dumps (update_default st component (JValue.str version)).config := by
    simp [update_default, save_config]
  refine ⟨?_, hfile, by rw [hfile]; exact parse_dumps _⟩
  obtain ⟨cfg, fl⟩ := st
  simp only at hobj
  subst hobj
  rcases hdef with hnone | ⟨dkvs, hsome⟩
  · have hkey : jHasKey (JValue.obj kvs) "defaults" = false := by
      simp only [jHasKey]
      exact (dictGet_none_iff_not_any kvs "defaults").mp (by simpa [jGet] using hnone)
    simp [update_default, save_config, hkey, jSetKey, jGet, get_defaults, jGetD,
      dictGet_dictSet_self, dictGet]
  · have hkey : jHasKey (JValue.obj kvs) "defaults" = true := by
      simp only [jHasKey]
      by_contra hc
      rw [Bool.not_eq_true] at hc
      have := (dictGet_none_iff_not_any kvs "defaults").mpr hc
      rw [jGet] at hsome
      rw [this] at hsome
      exact Option.noConfusion hsome
    have hsome2 : dictGet kvs "defaults" = some (JValue.obj dkvs) := by
      simpa [jGet] using hsome
    simp [update_default, save_config, hkey, hsome2, jSetKey, jGet, get_defaults,
      jGetD, dictGet_dictSet_self]

/-- C4 witness: a concrete state through both hypotheses. -/
theorem update_default_persists_witness :
    jGet (get_defaults (update_default ⟨JValue.obj [], "F"⟩ "qemu"
        (JValue.str "4.3.0")).config) "qemu_version" = some (JValue.str "4.3.0") :=
  (update_default_persists ⟨JValue.obj [], "F"⟩ "qemu" "4.3.0" [] rfl
    (Or.inl rfl)).1

/-! ## Claim theorems: state and build command -/

/-- C8: whenever a version selection ends in cancellation, the
configuration state — the in-memory document and the persisted file —
is exactly what it was before the selection began. -/
theorem cancelled_selection_frame (st : MState) (component : String)
    (events : List ChooseEvent)
    (h : select_version (versionsOf st.config component) events = some none) :
    menuSelect st component events = some st := by
  unfold menuSelect
  rw [h]

/-- C8 witness: an interrupt and a cancel input, each leaving a
concrete state untouched. -/
theorem cancelled_selection_frame_witness :
    menuSelect
        ⟨JValue.obj [("available_versions",
          JValue.obj [("qemu", JValue.arr [JValue.str "1.0"])])], "FILE"⟩
        "qemu" [ChooseEvent.interrupt] =
      some ⟨JValue.obj [("available_versions",
        JValue.obj [("qemu", JValue.arr [JValue.str "1.0"])])], "FILE"⟩ ∧
    menuSelect
        ⟨JValue.obj [("available_versions",
          JValue.obj [("qemu", JValue.arr [JValue.str "1.0"])])], "FILE"⟩
        "qemu" [ChooseEvent.inp "q"] =
      some ⟨JValue.obj [("available_versions",
        JValue.obj [("qemu", JValue.arr [JValue.str "1.0"])])], "FILE"⟩ :=
  ⟨cancelled_selection_frame _ "qemu" [ChooseEvent.interrupt] rfl,
    cancelled_selection_frame _ "qemu" [ChooseEvent.inp "q"] rfl⟩

/-- C9: the build operation derives the image tag
`gns3-qemu:<emulator-version>-server-<server-version>` and passes the
two versions as the two build arguments of the docker build command. -/
theorem build_image_format (config : JValue) (q g : String)
    (hq : asStr (jGetD (get_defaults config) "qemu_version" (JValue.str "4.2.1")) =
      some q)
    (hg : asStr (jGetD (get_defaults config) "gns3_server_version"
      (JValue.str "2.2.40")) = some g) :
    ∃ tag cmd, build_image config = some (tag, cmd) ∧
      tag = "gns3-qemu:" ++ q ++ "-server-" ++ g ∧
      cmd = ["docker", "build", "--build-arg", "QEMU_VERSION=" ++ q,
             "--build-arg", "GNS3_SERVER_VERSION=" ++ g, "-t", tag, "."] := by
  refine ⟨_, _, ?_, rfl, rfl⟩
  unfold build_image
  simp only [hq, hg]

/-- C9 witness: explicit defaults and the fallback pair. -/
theorem build_image_format_witness :
    (∃ tag cmd, build_image (JValue.obj [("defaults", JValue.obj
        [("qemu_version", JValue.str "6.2"),
         ("gns3_server_version", JValue.str "2.2.43")])]) = some (tag, cmd) ∧
      tag = "gns3-qemu:" ++ "6.2" ++ "-server-" ++ "2.2.43" ∧
      cmd = ["docker", "build", "--build-arg", "QEMU_VERSION=" ++ "6.2",
             "--build-arg", "GNS3_SERVER_VERSION=" ++ "2.2.43", "-t", tag, "."]) ∧
    (∃ tag cmd, build_image (JValue.obj []) = some (tag, cmd) ∧
      tag = "gns3-qemu:" ++ "4.2.1" ++ "-server-" ++ "2.2.40" ∧
      cmd = ["docker", "build", "--build-arg", "QEMU_VERSION=" ++ "4.2.1",
             "--build-arg", "GNS3_SERVER_VERSION=" ++ "2.2.40", "-t", tag, "."]) :=
  ⟨build_image_format _ "6.2" "2.2.43" rfl rfl,
    build_image_format _ "4.2.1" "2.2.40" rfl rfl⟩

end GNS3
